import Mathlib

/-!
Verification development for the payroll PDF extraction pipeline
(`src/lib/pdf-parser.ts`).

The TypeScript source is shallowly embedded as executable Lean
definitions:

- JS `number` values that carry parsed payroll amounts and geometric
  coordinates are modelled as `ℚ` (all arithmetic performed by the code
  on them is exact on the inputs considered); `Math.round` is modelled
  by `jsRound` with the exact JS tie-breaking rule.
- JS plain objects used as string-keyed numeric maps
  (`Record<string, number>`) are modelled as insertion-ordered
  association lists with unique keys (`ObjMap`), with JS assignment,
  spread-merge and `delete` semantics.
- JS `Map` (insertion-ordered) is modelled as an insertion-ordered list
  of records with unique keys.
- JS regular expressions used by the parser are compiled by hand to
  explicit character-level matchers (`RTok` sequences or bespoke
  scanners); each matcher is annotated with the regex it implements.
- Thrown exceptions are modelled with `Except String`; the progress
  callback is modelled by the list of `(step, detail)` events the
  pipeline emits.
- `Array.prototype.sort` (stable, per the ECMAScript spec) is modelled
  by `List.mergeSort` (stable) with the same comparator.
- Error / warning strings pushed by the validator are modelled by the
  structured messages `VMsg`, carrying exactly the data interpolated
  into the source strings (identifier and compared amounts).
-/

namespace SPMS

/-! ## Character and string utilities -/

/-- JS `Math.round`: round half toward positive infinity. -/
def jsRound (q : ℚ) : Int := ⌊q + 1/2⌋

/-- Whitespace test used for the regex class `\s` (ASCII forms). -/
def isWsChar (c : Char) : Bool := c.isWhitespace

/-- Word-character test for the regex class `\w` / boundary `\b`. -/
def isWordChar (c : Char) : Bool := c.isAlphanum || c == '_'

/-- Does `needle` occur as a contiguous substring of `hay`?  Models JS
`String.prototype.includes` (on the char lists of the two strings). -/
def subAux (needle : List Char) : List Char → Bool
  | [] => needle.isPrefixOf []
  | c :: rest => needle.isPrefixOf (c :: rest) || subAux needle rest

/-- JS `hay.includes(needle)`. -/
def containsSub (hay needle : String) : Bool := subAux needle.data hay.data

/-- Tokens of the tiny regex language needed by the parser's patterns:
literal sequence, optional single character, `\s*`, `\s+`, a one-of
character set, word boundary `\b`, end anchor `$`. -/
inductive RTok where
  | lit (cs : List Char)
  | opt (c : Char)
  | ws0
  | ws1
  | oneOf (cs : List Char)
  | wb
  | eos
deriving Repr

/-- Consume a literal off the head of the input. -/
def dropLit : List Char → List Char → Option (List Char)
  | [], s => some s
  | _ :: _, [] => none
  | c :: cs, d :: ds => if c == d then dropLit cs ds else none

/-- Match a token sequence against a prefix of the input.  `prev` is
the character just before the current position (for `\b`).  Greedy
whitespace matching is used; in every pattern in this file a
whitespace token is followed by a non-whitespace literal, so greedy
matching agrees with backtracking regex semantics. -/
def matchToks : Option Char → List RTok → List Char → Bool
  | _, [], _ => true
  | prev, .lit cs :: ts, s =>
    match dropLit cs s with
    | some rest => matchToks (if cs.isEmpty then prev else cs.getLast?) ts rest
    | none => false
  | prev, .opt c :: ts, s =>
    match s with
    | [] => matchToks prev ts []
    | d :: ds => if d == c then matchToks (some c) ts ds else matchToks prev ts (d :: ds)
  | prev, .ws0 :: ts, s =>
    let ws := s.takeWhile isWsChar
    matchToks (match ws.getLast? with | some c => some c | none => prev) ts (s.dropWhile isWsChar)
  | _, .ws1 :: ts, s =>
    match s with
    | [] => false
    | d :: ds =>
      if isWsChar d then
        let ws := ds.takeWhile isWsChar
        matchToks (match ws.getLast? with | some c => some c | none => some d) ts
          (ds.dropWhile isWsChar)
      else false
  | _, .oneOf cs :: ts, s =>
    match s with
    | [] => false
    | d :: ds => cs.contains d && matchToks (some d) ts ds
  | prev, .wb :: ts, s =>
    let left := match prev with | some c => isWordChar c | none => false
    let right := match s.head? with | some c => isWordChar c | none => false
    (left != right) && matchToks prev ts s
  | _, .eos :: _, s => s.isEmpty

/-- Search for a token-sequence match starting at any position. -/
def searchAux (toks : List RTok) (prev : Option Char) : List Char → Bool
  | [] => matchToks prev toks []
  | c :: rest => matchToks prev toks (c :: rest) || searchAux toks (some c) rest

/-- Unanchored, case-insensitive regex search: the token literals are
written lowercase and the subject is lowercased. -/
def ciPat (toks : List RTok) (s : String) : Bool := searchAux toks none s.toLower.data

/-- Anchored (`^...`), case-insensitive regex match at the start. -/
def ciPatStart (toks : List RTok) (s : String) : Bool := matchToks none toks s.toLower.data

/-- Case-insensitive substring containment (regex `/lit/i`). -/
def ciContains (needle : String) (s : String) : Bool := containsSub s.toLower needle

/-- Plain substring containment (digit-code regexes such as `/0103/`). -/
def plainContains (needle : String) (s : String) : Bool := containsSub s needle

/-- Case-insensitive whole-string equality (regex `/^lit$/i`). -/
def ciEquals (t : String) (s : String) : Bool := s.toLower == t

/-- Helper: string made of a reversed char accumulator. -/
def ofRevChars (cs : List Char) : String := String.mk cs.reverse

/-- JS `split` on the whitespace-run regex: pieces between maximal
whitespace runs, keeping an empty leading piece when the string starts
with whitespace and an empty trailing piece when it ends with
whitespace.  `fuel` bounds the steps (each consumes at least one
character). -/
def splitWsAux : Nat → List Char → List Char → List String
  | 0, cur, _ => [ofRevChars cur]
  | _ + 1, cur, [] => [ofRevChars cur]
  | fuel + 1, cur, c :: rest =>
    if isWsChar c then ofRevChars cur :: splitWsAux fuel [] (rest.dropWhile isWsChar)
    else splitWsAux fuel (c :: cur) rest

/-- JS `s.split` on `\s+`. -/
def splitWs (s : String) : List String := splitWsAux s.data.length [] s.data

/-- Collapse whitespace runs to single spaces: JS global replace of
`\s+` by a single space. -/
def wsCollapseAux : Nat → List Char → List Char → List Char
  | 0, cur, _ => cur.reverse
  | _ + 1, cur, [] => cur.reverse
  | fuel + 1, cur, c :: rest =>
    if isWsChar c then wsCollapseAux fuel (' ' :: cur) (rest.dropWhile isWsChar)
    else wsCollapseAux fuel (c :: cur) rest

/-- JS global replace of `\s+` by a single space. -/
def wsCollapse (s : String) : String := String.mk (wsCollapseAux s.data.length [] s.data)

/-- Digit run value (used for `parseInt` on a digit-only capture). -/
def digitsToNat (ds : List Char) : Nat := ds.foldl (fun n c => n * 10 + (c.toNat - '0'.toNat)) 0

/-- Decimal value of a regex match of `-?\d+\.?\d*` (JS `Number` /
`parseFloat` agree on such strings). -/
def decimalVal (neg : Bool) (intDs fracDs : List Char) : ℚ :=
  let mag : ℚ := (digitsToNat intDs : ℚ) + (digitsToNat fracDs : ℚ) / (10 ^ fracDs.length : ℚ)
  if neg then -mag else mag

/-- Try to match `-?\d+\.?\d*` at the current position; on success
return the value and the remaining input. -/
def numTokenAt (s : List Char) : Option (ℚ × List Char) :=
  let (neg, s1) := match s with
    | '-' :: rest => (true, rest)
    | _ => (false, s)
  let intDs := s1.takeWhile Char.isDigit
  if intDs.isEmpty then none
  else
    let s2 := s1.dropWhile Char.isDigit
    match s2 with
    | '.' :: s3 =>
      let fracDs := s3.takeWhile Char.isDigit
      some (decimalVal neg intDs fracDs, s3.dropWhile Char.isDigit)
    | _ => some (decimalVal neg intDs [], s2)

/-- Global scan for the g-flagged regex `-?\d+\.?\d*`: leftmost
matches, resuming after each match.  `fuel` bounds the number of steps
(each step consumes at least one character). -/
def numScanAux : Nat → List Char → List ℚ
  | 0, _ => []
  | _ + 1, [] => []
  | fuel + 1, c :: rest =>
    match numTokenAt (c :: rest) with
    | some (q, rem) => q :: numScanAux fuel rem
    | none => numScanAux fuel rest

/-- `extractNumbers` from the source: the matches of the g-flagged
regex `-?\d+\.?\d*` on `text`, mapped through `Number`. -/
def extractNumbers (text : String) : List ℚ := numScanAux text.data.length text.data

/-- Full-string test for `/^-?\d+\.?\d*$/` (numeric token test in the
block parser). -/
def numericFullTest (s : String) : Bool :=
  match numTokenAt s.data with
  | some (_, rem) => rem.isEmpty
  | none => false

/-- Match `^\d+\s+\d{8}` at the start of a line; with
`needTrailWs := true` also require a following `\s` (the data-line
anchor regex `/^\d+\s+\d{8}\s/`; without it, the header-zone test
`/^\d+\s+\d{8}/`). -/
def matchSerialHrpn (needTrailWs : Bool) (s : List Char) : Bool :=
  let ds := s.takeWhile Char.isDigit
  if ds.isEmpty then false
  else
    let r1 := s.dropWhile Char.isDigit
    let ws := r1.takeWhile isWsChar
    if ws.isEmpty then false
    else
      let r2 := r1.dropWhile isWsChar
      let hs := r2.takeWhile Char.isDigit
      if hs.length < 8 then false
      else
        if needTrailWs then
          -- after exactly 8 digits the next character must be `\s`
          match r2.drop 8 with
          | c :: _ => isWsChar c
          | [] => false
        else true

/-- Capture groups of `/^(\d+)\s+(\d{8})\s/` on a data line: the
serial number (via `parseInt`) and the 8-digit identifier. -/
def parseAnchorLine (s : String) : Option (Nat × String) :=
  let cs := s.data
  let ds := cs.takeWhile Char.isDigit
  if ds.isEmpty then none
  else
    let r1 := cs.dropWhile Char.isDigit
    let ws := r1.takeWhile isWsChar
    if ws.isEmpty then none
    else
      let r2 := r1.dropWhile isWsChar
      let hs := r2.takeWhile Char.isDigit
      if hs.length < 8 then none
      else
        match r2.drop 8 with
        | c :: _ =>
          if isWsChar c then some (digitsToNat ds, String.mk (r2.take 8)) else none
        | [] => none

/-- JS `dataText.replace(/^\d+\s+\d{8}\s+/, '')`: strip the
serial-plus-identifier prefix (with all following whitespace) if it
matches, else leave the string unchanged. -/
def stripSerialHrpn (s : String) : String :=
  let cs := s.data
  let ds := cs.takeWhile Char.isDigit
  if ds.isEmpty then s
  else
    let r1 := cs.dropWhile Char.isDigit
    let ws := r1.takeWhile isWsChar
    if ws.isEmpty then s
    else
      let r2 := r1.dropWhile isWsChar
      let hs := r2.takeWhile Char.isDigit
      if hs.length < 8 then s
      else
        match r2.drop 8 with
        | c :: _ =>
          if isWsChar c then String.mk ((r2.drop 8).dropWhile isWsChar) else s
        | [] => s

/-- `/^total\b/i`: the line starts with `total` followed by a word
boundary. -/
def totalStart (text : String) : Bool :=
  let cs := text.toLower.data
  (String.mk ['t','o','t','a','l']).data.isPrefixOf cs &&
    (match cs.drop 5 with
     | [] => true
     | c :: _ => !isWordChar c)

/-- The honorific prefixes of `isNamePrefix` / `isNamePrefixLine`:
`/^(Mr\.|Mrs\.|Miss\.|Ms\.|Dr\.|Shri\.|Smt\.)/i`.  (The source name
`isNamePrefix` is not a legal identifier here, hence the rename.) -/
def namePrefixCheck (text : String) : Bool :=
  ["mr.", "mrs.", "miss.", "ms.", "dr.", "shri.", "smt."].any
    (fun p => p.data.isPrefixOf text.toLower.data)

/-- `isNamePrefixLine`: the same test applied to the trimmed line. -/
def lineNamePrefixCheck (text : String) : Bool := namePrefixCheck text.trim

/-! ## Data model -/

/-- A positioned text token as stored per line by `extractText`
(`TextItem`): rounded x, trimmed text, raw width. -/
structure TextItem where
  x : Int
  text : String
  width : ℚ
deriving DecidableEq, Repr, Inhabited

/-- A reconstructed line (`TextLine`): rounded y bucket, x-ordered
items, space-joined text. -/
structure TextLine where
  y : Int
  items : List TextItem
  text : String
deriving DecidableEq, Repr, Inhabited

/-- A page of reconstructed lines (`PageData`). -/
structure PageData where
  pageNum : Nat
  lines : List TextLine
deriving DecidableEq, Repr, Inhabited

/-- Result of text extraction (`ExtractedText`). -/
structure ExtractedText where
  pages : List PageData
  rawText : String
  fullLines : List String
deriving DecidableEq, Repr, Inhabited

/-- A raw positioned token handed over by the external text-extraction
library: `transform[4]` (x), `transform[5]` (y), the string, and the
rendered width (`item.width || 0`). -/
structure RawItem where
  x : ℚ
  y : ℚ
  str : String
  width : ℚ
deriving DecidableEq, Repr, Inhabited

/-! ## Module 1: extractText

The source iterates the page's raw tokens, skipping tokens whose
trimmed text is empty, and pushes `{x: round(transform[4]), text:
str.trim(), width}` into `lineMap[round(transform[5])]`; it then walks
`Object.keys(lineMap)` sorted descending (the keys are pairwise
distinct, so the comparator `(a, b) => b - a` determines the order
completely) and sorts each bucket ascending by `x` (stable sort). -/

/-- The stored form of a kept raw token. -/
def toTextItem (it : RawItem) : TextItem := ⟨jsRound it.x, it.str.trim, it.width⟩

/-- Tokens that survive the `str.trim() === ''` skip. -/
def keptItems (items : List RawItem) : List RawItem :=
  items.filter (fun it => it.str.trim != "")

/-- The `lineMap` key of a token. -/
def yKey (it : RawItem) : Int := jsRound it.y

/-- The bucket `lineMap[y]`, in push (page) order. -/
def bucketRaw (items : List RawItem) (y : Int) : List RawItem :=
  (keptItems items).filter (fun it => yKey it == y)

/-- `Object.keys(lineMap).map(Number).sort((a, b) => b - a)`:
the distinct keys in descending order. -/
def sortedYs (items : List RawItem) : List Int :=
  (((keptItems items).map yKey).dedup).mergeSort (fun a b => decide (b ≤ a))

/-- One reconstructed line: bucket sorted ascending by x (stable),
text joined with single spaces. -/
def buildLine (y : Int) (bucket : List RawItem) : TextLine :=
  let its := (bucket.map toTextItem).mergeSort (fun a b => decide (a.x ≤ b.x))
  ⟨y, its, String.intercalate " " (its.map (fun i => i.text))⟩

/-- The body of the per-page loop of `extractText`. -/
def extractPage (pageNum : Nat) (items : List RawItem) : PageData :=
  ⟨pageNum, (sortedYs items).map (fun y => buildLine y (bucketRaw items y))⟩

/-- `extractText`, starting from the positioned tokens the external
extraction library yields per page (pages are numbered from 1). -/
def extractText (pagesIn : List (List RawItem)) : ExtractedText :=
  let pages := pagesIn.mapIdx (fun i items => extractPage (i + 1) items)
  let allLines := (pages.map (fun p => p.lines.map (fun l => l.text))).flatten
  ⟨pages, String.intercalate "\n" allLines, allLines⟩

/-! ## Module 2: detectType -/

/-- The two document kinds. -/
inductive DocType where
  | earning
  | deduction
deriving DecidableEq, Repr, Inhabited

/-- `detectType`: scans the lowercased concatenated text for the two
markers, earning first; absence of both throws.  The best-effort
month / bill-number / office extraction performed afterwards in the
source is omitted here: no claim reads those fields and they cannot
affect the detected kind or the thrown error. -/
def detectType (rawText : String) : Except String DocType :=
  let text := rawText.toLower
  if containsSub text "earning side" then .ok .earning
  else if containsSub text "deduction side" then .ok .deduction
  else .error "Cannot detect PDF type: neither \"Earning Side\" nor \"Deduction Side\" found."

/-! ## JS object maps

`Record<string, number>` values (field mappings) are modelled as
insertion-ordered association lists with pairwise-distinct keys.
Assignment to an existing key updates the value in place (the key
keeps its position); assignment to a fresh key appends; `delete`
removes the key; `{...a, ...b}` assigns every entry of `b` into `a` in
order. -/

/-- A JS string-to-number object. -/
abbrev ObjMap : Type := List (String × ℚ)

/-- JS `m[k] = v`. -/
def objInsert : ObjMap → String → ℚ → ObjMap
  | [], k, v => [(k, v)]
  | (k', v') :: rest, k, v =>
    if k' == k then (k', v) :: rest else (k', v') :: objInsert rest k v

/-- JS `m[k]` (`undefined` when absent). -/
def objGet? (m : ObjMap) (k : String) : Option ℚ :=
  (List.find? (fun kv => kv.1 == k) m).map (fun kv => kv.2)

/-- JS `delete m[k]`. -/
def objDelete : ObjMap → String → ObjMap
  | [], _ => []
  | (k', v') :: rest, k => if k' == k then rest else (k', v') :: objDelete rest k

/-- JS `{...a, ...b}`. -/
def spreadMerge (a b : ObjMap) : ObjMap :=
  b.foldl (fun acc kv => objInsert acc kv.1 kv.2) a

/-- The key list of an object (`Object.keys`). -/
def objKeys (m : ObjMap) : List String := m.map (fun kv => kv.1)

/-! ## Module 3: parseHeaders -/

/-- A token of the header zone pool: `{x, text, y, width}`. -/
structure HeaderItem where
  x : Int
  text : String
  y : Int
  width : ℚ
deriving DecidableEq, Repr, Inhabited

/-- `findItemByText`: first item whose text matches the pattern.
Regex patterns are passed as boolean predicates on the item text. -/
def findItemByText (items : List HeaderItem) (pattern : String → Bool) : Option HeaderItem :=
  items.find? (fun it => pattern it.text)

/-- Result of a detector: `{found, x}`. -/
structure FindResult where
  found : Bool
  x : Int
deriving DecidableEq, Repr, Inhabited

/-- `findByKeyword`: resolve a field position by the primary keyword
pattern first; only if no item matches it, fall back to the numeric
field-code pattern. -/
def findByKeyword (items : List HeaderItem) (primaryPattern : String → Bool)
    (codePattern : Option (String → Bool) := none) : FindResult :=
  match findItemByText items primaryPattern with
  | some it => ⟨true, it.x⟩
  | none =>
    match codePattern with
    | some cp =>
      match findItemByText items cp with
      | some codeItem => ⟨true, codeItem.x⟩
      | none => ⟨false, 0⟩
    | none => ⟨false, 0⟩

/-- A detector catalogue entry: label plus match rule over the
header-token pool and its joined raw text. -/
structure Detector where
  label : String
  detect : List HeaderItem → String → FindResult

/-- `getEarningDetectors`.  The regex of each entry is compiled to a
predicate: an unanchored `/lit/i` becomes `ciContains`, a `/^lit$/i`
becomes `ciEquals`, digit codes such as `/0103/` become
`plainContains`, and whitespace-flexible patterns use `ciPat`. -/
def getEarningDetectors : List Detector :=
  [ ⟨"Basic Pay", fun items _ => findByKeyword items (ciContains "basic")⟩
  , ⟨"DA (0103)", fun items _ => findByKeyword items (ciContains "da") (some (plainContains "0103"))⟩
  , ⟨"HRA (0110)", fun items _ => findByKeyword items (ciContains "hra") (some (plainContains "0110"))⟩
  , ⟨"CLA (0111)", fun items _ => findByKeyword items (ciContains "cla") (some (plainContains "0111"))⟩
  , ⟨"Med Allow", fun items _ => findByKeyword items (ciContains "med") (some (plainContains "0107"))⟩
  , ⟨"Trans Allow", fun items _ => findByKeyword items (ciContains "trans") (some (plainContains "0113"))⟩
  , ⟨"Special Additional Pay", fun items _ =>
      match findItemByText items (ciEquals "special"), findItemByText items (ciEquals "additional") with
      | some special, some additional => ⟨true, min special.x additional.x⟩
      | _, _ => findByKeyword items (ciContains "special")⟩
  , ⟨"Non Private Practice Allow", fun items text =>
      let nonPrivate := findItemByText items
        (fun s => matchToks none [.lit "non".data, .ws0, .lit "private".data, .eos] s.toLower.data)
      let practice := findItemByText items (ciContains "practice")
      match nonPrivate, practice with
      | some np, _ => ⟨true, np.x⟩
      | none, some p => ⟨true, p.x⟩
      | none, none =>
        if ciPat [.lit "non".data, .ws0, .lit "private".data] text ||
            ciPat [.lit "practice".data, .ws0, .lit "allow".data] text ||
            ciContains "(0128)" text then
          match findItemByText items (plainContains "0128") with
          | some it => ⟨true, it.x⟩
          | none => ⟨true, 500⟩
        else ⟨false, 0⟩⟩
  , ⟨"Washing Allow", fun items _ => findByKeyword items (ciContains "washing") (some (plainContains "0132"))⟩
  , ⟨"Nursing Allow", fun items _ => findByKeyword items (ciContains "nursing") (some (plainContains "0129"))⟩
  , ⟨"Uniform Allow", fun items _ => findByKeyword items (ciContains "uniform") (some (plainContains "0131"))⟩
  , ⟨"Book Allow", fun items _ => findByKeyword items (ciContains "book") (some (plainContains "0104"))⟩
  , ⟨"ESIS Allow", fun items _ => findByKeyword items (ciContains "esis") (some (plainContains "0127"))⟩
  , ⟨"Recovery of Pay", fun items _ =>
      match findItemByText items (ciEquals "recovery") with
      | some recovery => ⟨true, recovery.x⟩
      | none => findByKeyword items (ciContains "recovery")⟩
  , ⟨"Gross Amt", fun items _ => findByKeyword items (ciContains "gross")⟩
  , ⟨"SLO", fun items _ => findByKeyword items (ciEquals "slo")⟩
  ]

/-- `getDeductionDetectors`. -/
def getDeductionDetectors : List Detector :=
  [ ⟨"Income Tax", fun items _ => findByKeyword items (ciContains "income") (some (plainContains "9510"))⟩
  , ⟨"Prof Tax", fun items _ => findByKeyword items (ciContains "prof") (some (plainContains "9570"))⟩
  , ⟨"R&B", fun items _ => findByKeyword items (ciContains "r&b") (some (plainContains "9550"))⟩
  , ⟨"GPF Reg Class 4", fun items _ => findByKeyword items (ciContains "class") (some (plainContains "9531"))⟩
  , ⟨"GPF Reg", fun items text =>
      if ciPat [.lit "gpf".data, .ws0, .lit "reg".data] text || plainContains "9670" text then
        match findItemByText items (ciContains "gpf") with
        | some gpf => ⟨true, gpf.x⟩
        | none =>
          match findItemByText items (plainContains "9670") with
          | some code => ⟨true, code.x⟩
          | none => ⟨false, 0⟩
      else ⟨false, 0⟩⟩
  , ⟨"NPS Reg", fun items _ => findByKeyword items (ciContains "nps") (some (plainContains "9534"))⟩
  , ⟨"Govt Fund", fun items text =>
      if ciPat [.lit "govt".data, .ws0, .lit "fund".data] text || plainContains "9581" text then
        match findItemByText items (ciContains "fund") with
        | some it => ⟨true, it.x⟩
        | none =>
          match findItemByText items (plainContains "9581") with
          | some code => ⟨true, code.x⟩
          | none => ⟨false, 0⟩
      else ⟨false, 0⟩⟩
  , ⟨"Govt Saving", fun items text =>
      if ciPat [.lit "govt".data, .ws0, .lit "saving".data] text || plainContains "9582" text then
        match findItemByText items (ciContains "saving") with
        | some it => ⟨true, it.x⟩
        | none =>
          match findItemByText items (plainContains "9582") with
          | some code => ⟨true, code.x⟩
          | none => ⟨false, 0⟩
      else ⟨false, 0⟩⟩
  , ⟨"Total Ded", fun items _ =>
      findByKeyword items (fun s => ciPat [.lit "total".data, .ws0, .lit "ded".data] s)⟩
  , ⟨"Net Pay", fun items _ =>
      findByKeyword items (fun s => ciPat [.lit "net".data, .ws0, .lit "pay".data] s)⟩
  ]

/-- The header-zone walk of `parseHeadersSmart`: the zone opens after
a line containing phone/mobile and closes at the first data-looking or
honorific line; zone lines contribute all their items to the pool. -/
def collectHeaderItems : Bool → List TextLine → List HeaderItem
  | _, [] => []
  | inZone, line :: rest =>
    if ciContains "phone" line.text || ciContains "mobile" line.text then
      collectHeaderItems true rest
    else if inZone then
      if matchSerialHrpn false line.text.data || namePrefixCheck line.text.trim then []
      else
        line.items.map (fun it => (⟨it.x, it.text, line.y, it.width⟩ : HeaderItem)) ++
          collectHeaderItems inZone rest
    else collectHeaderItems inZone rest

/-- Result of `parseHeadersSmart`. -/
structure HeaderResult where
  headers : List String
  isValid : Bool
  rawHeaderText : String
deriving DecidableEq, Repr, Inhabited

/-- `parseHeadersSmart`: run every detector of the document kind over
the header-token pool; found labels are sorted ascending by resolved
x-position (stable sort, as in JS). -/
def parseHeadersSmart (pageLines : List TextLine) (pdfType : DocType) : HeaderResult :=
  let headerItems := collectHeaderItems false pageLines
  if headerItems.isEmpty then ⟨[], false, ""⟩
  else
    let rawHeaderText := String.intercalate " " (headerItems.map (fun i => i.text))
    let detectors := match pdfType with
      | .earning => getEarningDetectors
      | .deduction => getDeductionDetectors
    let foundHeaders : List (String × Int) := detectors.filterMap (fun d =>
      let r := d.detect headerItems rawHeaderText
      if r.found then some (d.label, r.x) else none)
    let sortedHs := foundHeaders.mergeSort (fun a b => decide (a.2 ≤ b.2))
    ⟨sortedHs.map (fun h => h.1), decide (foundHeaders.length > 0), rawHeaderText⟩

/-! ## Module 4: segmentRows -/

/-- `isSkipLine`: institutional boilerplate, certification text,
office metadata and total rows are noise. -/
def isSkipLine (text : String) : Bool :=
  if text == "" || text.trim == "" then true
  else if ciContains "karmyogi" text || ciContains "gujarat.gov" text then true
  else if totalStart text then true
  else if ciContains "hereby certify" text ||
      ciPat [.lit "rupees".data, .ws0, .oneOf ['(', ':']] text ||
      ciContains "superintendent" text ||
      ciPat [.lit "cardex".data, .ws0, .lit "no".data] text ||
      ciPat [.lit "date".data, .ws0, .lit ":".data] text then true
  else if ciContains "paybill" text || ciContains "inner sheet" text ||
      ciContains "d.d.o" text ||
      ciPat [.lit "name".data, .ws1, .lit "of".data, .ws1, .lit "office".data] text ||
      ciPat [.lit "name".data, .ws1, .lit "of".data, .ws1, .lit "d.d.o".data] text ||
      ciPat [.lit "name".data, .ws1, .lit "of".data, .ws1, .lit "ministry".data] text ||
      ciPat [.lit "phone".data, .ws0, .lit "no".data] text ||
      ciContains "taluka" text || ciContains "e-mail" text ||
      ciContains "address" text || ciContains "department" text ||
      ciPat [.lit "major".data, .ws1, .lit "head".data] text ||
      ciPat [.lit "tan".data, .ws1, .lit "no".data] text ||
      ciPat [.lit "bill".data, .ws1, .lit "no".data] text ||
      ciPat [.lit "cardex".data, .ws1, .lit "no".data] text then true
  else if ciPatStart [.lit "esis".data, .ws1, .lit "general".data, .ws1, .lit "hospital".data] text then true
  else false

/-- An employee block produced by the row segmenter. -/
structure EmployeeBlock where
  srNo : Nat
  hrpn : String
  rawLines : List TextLine
  dataLine : TextLine
  page : Nat
deriving DecidableEq, Repr, Inhabited

/-- The captured running-total row. -/
structure TotalRow where
  rawText : String
  page : Nat
  values : List ℚ
deriving DecidableEq, Repr, Inhabited

/-- Indexing into a page's line list (every access performed by the
segmenter is in range). -/
def getLine (lines : List TextLine) (i : Nat) : TextLine := lines.getD i default

/-- The indices of the data-line anchors of a page. -/
def dataIdxsOf (lines : List TextLine) : List Nat :=
  (List.range lines.length).filter (fun i => matchSerialHrpn true (getLine lines i).text.data)

/-- `headerEndIdx`: first honorific or anchor line, default 0. -/
def headerEndIdxOf (lines : List TextLine) : Nat :=
  ((List.range lines.length).find? (fun i =>
    lineNamePrefixCheck (getLine lines i).text ||
      matchSerialHrpn true (getLine lines i).text.data)).getD 0

/-- The block-start scan: walk the region before the anchor, skipping
noise, stopping at the first honorific line (or, for the first anchor
of a page, at the first non-noise line); default is the anchor itself.
`fuel` is the region width. -/
def findEmpStart (lines : List TextLine) : Nat → Nat → Nat → Bool → Nat
  | 0, _, dataIdx, _ => dataIdx
  | fuel + 1, i, dataIdx, isFirst =>
    if i < dataIdx then
      let t := (getLine lines i).text.trim
      if isSkipLine t then findEmpStart lines fuel (i + 1) dataIdx isFirst
      else if lineNamePrefixCheck t then i
      else if isFirst then i
      else findEmpStart lines fuel (i + 1) dataIdx isFirst
    else dataIdx

/-- Collect the non-noise lines of `[start, dataIdx)`. -/
def collectBefore (lines : List TextLine) (start dataIdx : Nat) : List TextLine :=
  (List.range' start (dataIdx - start)).filterMap (fun i =>
    if isSkipLine (getLine lines i).text.trim then none else some (getLine lines i))

/-- Absorb trailing lines after the anchor up to the next anchor,
skipping noise and stopping at a total row or an honorific line. -/
def collectAfter (lines : List TextLine) : Nat → Nat → Nat → List TextLine
  | 0, _, _ => []
  | fuel + 1, i, nb =>
    if i < nb then
      let t := (getLine lines i).text.trim
      if isSkipLine t then collectAfter lines fuel (i + 1) nb
      else if totalStart t then []
      else if lineNamePrefixCheck t then []
      else getLine lines i :: collectAfter lines fuel (i + 1) nb
    else []

/-- Build the block of the `d`-th anchor of a page (the body of the
per-anchor loop of `segmentRows`). -/
def buildBlock (lines : List TextLine) (headerEndIdx : Nat) (dataIdxs : List Nat)
    (numLines : Nat) (d : Nat) (pageNum : Nat) : Option EmployeeBlock :=
  let dataIdx := dataIdxs.getD d 0
  let dataLine := getLine lines dataIdx
  let regionStart := if d == 0 then headerEndIdx else dataIdxs.getD (d - 1) 0 + 1
  let start := findEmpStart lines (dataIdx - regionStart) regionStart dataIdx (d == 0)
  let nb := if d < dataIdxs.length - 1 then dataIdxs.getD (d + 1) 0 else numLines
  let blockLines := collectBefore lines start dataIdx ++ [dataLine] ++
    collectAfter lines (nb - (dataIdx + 1)) (dataIdx + 1) nb
  match parseAnchorLine dataLine.text with
  | none => none
  | some (sr, hr) => some ⟨sr, hr, blockLines, dataLine, pageNum⟩

/-- All blocks of one page. -/
def segmentPage (page : PageData) : List EmployeeBlock :=
  let lines := page.lines
  let dataIdxs := dataIdxsOf lines
  if dataIdxs.isEmpty then []
  else
    (List.range dataIdxs.length).filterMap
      (fun d => buildBlock lines (headerEndIdxOf lines) dataIdxs lines.length d page.pageNum)

/-- The running-total update of the per-line scan (the last matching
line across all pages wins). -/
def pageTotal (acc : Option TotalRow) (page : PageData) : Option TotalRow :=
  page.lines.foldl (fun acc line =>
    if totalStart line.text.trim then
      some ⟨line.text, page.pageNum, extractNumbers line.text⟩
    else acc) acc

/-- `segmentRows`: employee blocks of all pages plus the captured
total row.  The source computes both in a single traversal; block
construction and total capture are independent, so they are split
here. -/
def segmentRows (pages : List PageData) : List EmployeeBlock × Option TotalRow :=
  (pages.flatMap segmentPage, pages.foldl pageTotal none)

/-! ## Module 5: parseEmployeeBlock -/

/-- The designation vocabulary. -/
def DESIGNATIONS : List String :=
  [ "Specialist", "Insurance Medical Officer", "Administrative Officer"
  , "Junior Clerk", "Senior Clerk", "Junior Pharmacist", "Senior Pharmacist"
  , "Matron", "Laboratory Technician", "Physiotherapist", "Head Nurse"
  , "Staff Nurse", "Superintendent", "Peon", "Sweeper", "Watchman", "Driver"
  , "Class-IV", "Class-III" ]

/-- `isDesignation`: exact case-insensitive match of the trimmed text
against the vocabulary. -/
def isDesignation (text : String) : Bool :=
  DESIGNATIONS.any (fun d => text.trim.toLower == d.toLower)

/-- Case-insensitive literal consumption. -/
def dropLitCI : List Char → List Char → Option (List Char)
  | [], s => some s
  | _ :: _, [] => none
  | c :: cs, d :: ds => if c.toLower == d.toLower then dropLitCI cs ds else none

/-- `isPayScale`: the anchored pay-band alternation (case-insensitive
`PB-` digit; a 4-or-5-digit group followed by a close-paren-slash or a
dash-digit; or one of the fixed numeric prefixes). -/
def isPayScale (text : String) : Bool :=
  let cs := text.trim.data
  (match dropLitCI "pb-".data cs with
   | some (c :: _) => c.isDigit
   | _ => false) ||
  (let ds := cs.takeWhile Char.isDigit
   (ds.length == 4 || ds.length == 5) &&
     (match cs.drop ds.length with
      | ')' :: '/' :: _ => true
      | '-' :: c :: _ => c.isDigit
      | _ => false)) ||
  "37400-".data.isPrefixOf cs || "20200)".data.isPrefixOf cs ||
  "34800)".data.isPrefixOf cs || "39100)".data.isPrefixOf cs ||
  "67000".data.isPrefixOf cs || "4440-".data.isPrefixOf cs

/-- Generic driver for a g-flagged `replace(re, '')`: scan left to
right; where the matcher succeeds, drop the matched span and resume
after it, else keep the character.  `fuel` bounds the steps (every
match consumes at least one character). -/
def greplace (matchAt : List Char → Option (List Char)) : Nat → List Char → List Char
  | 0, s => s
  | _ + 1, [] => []
  | fuel + 1, c :: rest =>
    match matchAt (c :: rest) with
    | some rem => greplace matchAt fuel rem
    | none => c :: greplace matchAt fuel rest

/-- Matcher 1 of `removePayScaleFromLine`: `\s*PB-\d\s*\(` followed by
no close paren up to the end of the line (gi-flagged, end-anchored). -/
def psM1 (s : List Char) : Option (List Char) :=
  match dropLitCI "pb-".data (s.dropWhile isWsChar) with
  | some (c :: s3) =>
    if c.isDigit then
      match s3.dropWhile isWsChar with
      | '(' :: s5 => if s5.all (fun d => d != ')') then some [] else none
      | _ => none
    else none
  | _ => none

/-- Matcher 2: `\s*PB-\d\s*\(` then the parenthesised group closed by
`)` followed by `/` and digits. -/
def psM2 (s : List Char) : Option (List Char) :=
  match dropLitCI "pb-".data (s.dropWhile isWsChar) with
  | some (c :: s3) =>
    if c.isDigit then
      match s3.dropWhile isWsChar with
      | '(' :: s5 =>
        match s5.dropWhile (fun d => d != ')') with
        | ')' :: '/' :: r =>
          let ds := r.takeWhile Char.isDigit
          if ds.isEmpty then none else some (r.dropWhile Char.isDigit)
        | _ => none
      | _ => none
    else none
  | _ => none

/-- Matcher 3: `\s*` then a 4-or-5-digit group, `)/`, digits. -/
def psM3 (s : List Char) : Option (List Char) :=
  let s1 := s.dropWhile isWsChar
  let ds := s1.takeWhile Char.isDigit
  if ds.length == 4 || ds.length == 5 then
    match s1.drop ds.length with
    | ')' :: '/' :: r =>
      let ds2 := r.takeWhile Char.isDigit
      if ds2.isEmpty then none else some (r.dropWhile Char.isDigit)
    | _ => none
  else none

/-- Matcher 4: `\s*` then 5 digits, `-`, 5 digits, `/`, digits. -/
def psM4 (s : List Char) : Option (List Char) :=
  let s1 := s.dropWhile isWsChar
  let ds := s1.takeWhile Char.isDigit
  if ds.length == 5 then
    match s1.drop 5 with
    | '-' :: r2 =>
      if (r2.takeWhile Char.isDigit).length == 5 then
        match r2.drop 5 with
        | '/' :: r4 =>
          let ds3 := r4.takeWhile Char.isDigit
          if ds3.isEmpty then none else some (r4.dropWhile Char.isDigit)
        | _ => none
      else none
    | _ => none
  else none

/-- Matcher 5: `\s*` then 4 digits, `-`, 4 digits, `/`, exactly 4
digits consumed. -/
def psM5 (s : List Char) : Option (List Char) :=
  let s1 := s.dropWhile isWsChar
  let ds := s1.takeWhile Char.isDigit
  if ds.length == 4 then
    match s1.drop 4 with
    | '-' :: r2 =>
      if (r2.takeWhile Char.isDigit).length == 4 then
        match r2.drop 4 with
        | '/' :: r4 =>
          if (r4.takeWhile Char.isDigit).length >= 4 then some (r4.drop 4) else none
        | _ => none
      else none
    | _ => none
  else none

/-- Matcher 6: `\s*` then 4 digits, `/`, exactly 4 digits consumed. -/
def psM6 (s : List Char) : Option (List Char) :=
  let s1 := s.dropWhile isWsChar
  let ds := s1.takeWhile Char.isDigit
  if ds.length == 4 then
    match s1.drop 4 with
    | '/' :: r2 =>
      if (r2.takeWhile Char.isDigit).length >= 4 then some (r2.drop 4) else none
    | _ => none
  else none

/-- Matcher 7: `\s*4440-\s*`. -/
def psM7 (s : List Char) : Option (List Char) :=
  match dropLit "4440-".data (s.dropWhile isWsChar) with
  | some r => some (r.dropWhile isWsChar)
  | none => none

/-- `removePayScaleFromLine`: the seven chained global replaces,
followed by `trim`. -/
def removePayScaleFromLine (text : String) : String :=
  let s1 := greplace psM1 text.data.length text.data
  let s2 := greplace psM2 s1.length s1
  let s3 := greplace psM3 s2.length s2
  let s4 := greplace psM4 s3.length s3
  let s5 := greplace psM5 s4.length s4
  let s6 := greplace psM6 s5.length s5
  let s7 := greplace psM7 s6.length s6
  (String.mk s7).trim

/-- `isPartOfDesignation`: a numeric token immediately following the
word `class` continues a designation. -/
def isPartOfDesignation (tokens : List String) (i : Nat) : Bool :=
  decide (i > 0) && (tokens.getD (i - 1) "").toLower == "class"

/-- Case-insensitive `indexOf`. -/
def idxOfAux (needle : List Char) : List Char → Nat → Option Nat
  | [], i => if needle.isPrefixOf ([] : List Char) then some i else none
  | c :: rest, i =>
    if needle.isPrefixOf (c :: rest) then some i else idxOfAux needle rest (i + 1)

/-- `findDesignation`: the vocabulary sorted longest-first (stable
sort, as JS), first title found as a case-insensitive substring; the
match is split out of the text by position. -/
def findDesignation (text : String) : Option (String × String × String) :=
  let sortedDesigs := DESIGNATIONS.mergeSort (fun a b => decide (b.length ≤ a.length))
  sortedDesigs.findSome? (fun desig =>
    match idxOfAux desig.toLower.data text.toLower.data 0 with
    | some idx =>
      some (String.mk ((text.data.drop idx).take desig.length),
            String.mk (text.data.take idx),
            String.mk (text.data.drop (idx + desig.length)))
    | none => none)

/-- A parsed employee block. -/
structure ParsedEmployee where
  srNo : Nat
  hrpn : String
  name : String
  designation : String
  values : List ℚ
deriving DecidableEq, Repr, Inhabited

/-- Test for `^\(.*\)$`: a fully parenthesised line. -/
def parenLineTest (s : String) : Bool :=
  match s.data with
  | [] => false
  | c :: rest =>
    c == '(' && (match rest.getLast? with
      | some d => d == ')'
      | none => false)

/-- State of the name/designation scan over the block lines. -/
structure BPState where
  namesBefore : List String
  namesAfter : List String
  designation : String
  foundDataLine : Bool
deriving Repr

/-- Push a name fragment to the before or after list. -/
def pushName (st : BPState) (s : String) : BPState :=
  if st.foundDataLine then {st with namesAfter := st.namesAfter ++ [s]}
  else {st with namesBefore := st.namesBefore ++ [s]}

/-- One step of the block-line scan of `parseEmployeeBlock`.  The
source compares each line against the anchor by object identity;
lines of a page are pairwise distinct (distinct y buckets), so value
equality is used here. -/
def bpStep (dataLine : TextLine) (st : BPState) (line : TextLine) : BPState :=
  if line == dataLine then {st with foundDataLine := true}
  else
    let text := line.text.trim
    if isPayScale text then st
    else
      let cleaned := removePayScaleFromLine text
      if parenLineTest cleaned then
        if st.designation != "" then
          {st with designation := st.designation ++ " " ++ cleaned}
        else st
      else if cleaned == "" then st
      else
        match findDesignation cleaned with
        | some (desig, namePart, _) =>
          let st1 := if st.designation == "" then {st with designation := desig} else st
          let nameBit := namePart.trim
          if nameBit != "" then pushName st1 nameBit else st1
        | none =>
          if isDesignation cleaned then
            if st.designation == "" then {st with designation := cleaned} else st
          else pushName st cleaned

/-- `/^[A-Z]$/`: a single uppercase letter token. -/
def singleUpper (s : String) : Bool :=
  match s.data with
  | [c] => c.isUpper
  | _ => false

/-- `parseEmployeeBlock`: names and designation from the block lines,
then the numeric boundary on the anchor line (earning documents use
the No/Yes eligibility pair followed by a single letter; otherwise the
first free-standing numeric token), then the ordered value list. -/
def parseEmployeeBlock (block : EmployeeBlock) (pdfType : DocType) : ParsedEmployee :=
  let st := block.rawLines.foldl (bpStep block.dataLine)
    ⟨[], [], "", false⟩
  let afterHrpn := stripSerialHrpn block.dataLine.text
  let tokens := splitWs afterHrpn
  let earnSplit : Option Nat :=
    if pdfType == .earning then
      (List.range tokens.length).find? (fun i =>
        (tokens.getD i "" == "No" || tokens.getD i "" == "Yes") &&
          decide (i + 1 < tokens.length) && singleUpper (tokens.getD (i + 1) ""))
    else none
  let split : List String × Option Nat :=
    match earnSplit with
    | some i => (tokens.take i, some (i + 2))
    | none =>
      match (List.range tokens.length).find? (fun i =>
          numericFullTest (tokens.getD i "") && !isPartOfDesignation tokens i) with
      | some i => (tokens.take i, some i)
      | none => ([], none)
  let textStr := String.intercalate " " split.1
  let nameDesig : String × String :=
    match findDesignation textStr with
    | some (dz, np, _) =>
      ((if st.designation == "" then dz else st.designation), np.trim)
    | none => (st.designation, textStr.trim)
  let allNameParts := st.namesBefore.filter (fun n => n != "") ++
    (if nameDesig.2 != "" then [nameDesig.2] else []) ++
    st.namesAfter.filter (fun n => n != "")
  let fullName0 := (wsCollapse (String.intercalate " " allNameParts)).trim
  let fullName := (wsCollapse (removePayScaleFromLine fullName0)).trim
  let numericPart :=
    match split.2 with
    | some i => String.intercalate " " (tokens.drop i)
    | none => ""
  ⟨block.srNo, block.hrpn, fullName, nameDesig.1, extractNumbers numericPart⟩

/-! ## Module 6: normalizeFields -/

/-- `HEADER_NORMALIZATION_MAP`: ordered label-pattern rules giving
canonical key and category.  Each regex is compiled as for the
detectors (`\b` becomes `.wb`, `\s*` becomes `.ws0`, `t?` becomes
`.opt`). -/
def HEADER_NORMALIZATION_MAP : List ((String → Bool) × String × String) :=
  [ (ciPat [.lit "basic".data, .ws0, .lit "pay".data], "basic", "earning")
  , (ciPat [.wb, .lit "da".data, .wb], "da", "earning")
  , (ciPat [.wb, .lit "hra".data, .wb], "hra", "earning")
  , (ciPat [.wb, .lit "cla".data, .wb], "cla", "earning")
  , (ciPat [.lit "med".data, .ws0, .lit "allow".data], "medAllow", "earning")
  , (ciPat [.lit "trans".data, .ws0, .lit "allow".data], "transAllow", "earning")
  , (ciPat [.lit "special".data, .ws0, .lit "additional".data, .ws0, .lit "pay".data],
      "specialPay", "earning")
  , (ciPat [.lit "non".data, .ws0, .lit "private".data, .ws0, .lit "practice".data, .ws0,
      .lit "allow".data], "nppAllow", "earning")
  , (ciPat [.lit "washing".data, .ws0, .lit "allow".data], "washingAllow", "earning")
  , (ciPat [.lit "nursing".data, .ws0, .lit "allow".data], "nursingAllow", "earning")
  , (ciPat [.lit "uniform".data, .ws0, .lit "allow".data], "uniformAllow", "earning")
  , (ciPat [.lit "book".data, .ws0, .lit "allow".data], "bookAllow", "earning")
  , (ciPat [.lit "esis".data, .ws0, .lit "allow".data], "esisAllow", "earning")
  , (ciPat [.lit "recovery".data, .ws0, .lit "of".data, .ws0, .lit "pay".data],
      "recoveryOfPay", "earning")
  , (ciPat [.lit "gross".data, .ws0, .lit "amt".data], "gross", "earning")
  , (ciPat [.wb, .lit "slo".data, .wb], "slo", "earning")
  , (ciPat [.lit "income".data, .ws0, .lit "tax".data], "incomeTax", "deduction")
  , (ciPat [.lit "prof".data, .ws0, .lit "tax".data], "profTax", "deduction")
  , (ciPat [.lit "r".data, .ws0, .lit "&".data, .ws0, .lit "b".data], "rnb", "deduction")
  , (ciPat [.lit "gpf".data, .ws0, .lit "reg".data, .ws0, .lit "class".data, .ws0,
      .lit "4".data], "gpfClass4", "deduction")
  , (ciPat [.lit "gpf".data, .ws0, .lit "reg".data, .wb], "gpfReg", "deduction")
  , (ciPat [.lit "nps".data, .ws0, .lit "reg".data], "npsReg", "deduction")
  , (ciPat [.lit "gov".data, .opt 't', .ws0, .lit "fund".data], "govtFund", "deduction")
  , (ciPat [.lit "gov".data, .opt 't', .ws0, .lit "saving".data], "govtSaving", "deduction")
  , (ciPat [.lit "total".data, .ws0, .lit "ded".data], "totalDed", "deduction")
  , (ciPat [.lit "net".data, .ws0, .lit "pay".data], "netPay", "deduction")
  ]

/-- Matcher for the g-flagged `\([^)]*\)` (parenthesised code strip in
the fallback key derivation). -/
def parenAt (s : List Char) : Option (List Char) :=
  match s with
  | '(' :: rest =>
    match rest.dropWhile (fun c => c != ')') with
    | ')' :: r => some r
    | _ => none
  | _ => none

/-- JS `word.charAt(0).toUpperCase() + word.slice(1).toLowerCase()`. -/
def capitalizeWord (w : String) : String :=
  match w.data with
  | [] => ""
  | c :: rest => String.mk (c.toUpper :: rest.map Char.toLower)

/-- `normalizeHeader`: first matching rule wins; otherwise the
deterministic fallback key derivation (strip parenthesised codes,
trim, split on whitespace, camel-case, concatenate; empty result
becomes `unknown`). -/
def normalizeHeader (rawHeader : String) : String × String :=
  match HEADER_NORMALIZATION_MAP.find? (fun m => m.1 rawHeader) with
  | some m => (m.2.1, m.2.2)
  | none =>
    let stripped := String.mk (greplace parenAt rawHeader.data.length rawHeader.data)
    let words := splitWs stripped.trim
    let fallback := String.join (words.mapIdx (fun i w =>
      if i == 0 then w.toLower else capitalizeWord w))
    ((if fallback == "" then "unknown" else fallback), "unknown")

/-- A normalized header entry (`NormalizedHeader`). -/
structure NormalizedHeader where
  raw : String
  canonical : String
  category : String
deriving DecidableEq, Repr, Inhabited

/-- `normalizeFields`: zip canonical keys positionally with the value
list; missing trailing values default to zero. -/
def normalizeFields (headers : List String) (values : List ℚ) : ObjMap :=
  (List.range headers.length).foldl (fun record i =>
    let header := headers.getD i ""
    let value := if i < values.length then values.getD i 0 else 0
    objInsert record (normalizeHeader header).1 value) []

/-! ## Module 7: mergePayroll -/

/-- A per-document employee record (the element type of
`SinglePdfResult.records`). -/
structure NRecord where
  hrpn : String
  name : String
  designation : String
  fields : ObjMap
  rawValues : List ℚ
deriving DecidableEq, Repr, Inhabited

/-- The merge output (`PayrollRecord`). -/
structure PayrollRecord where
  hrpn : String
  name : String
  designation : String
  earning : ObjMap
  deduction : ObjMap
  gross : ℚ
  totalDed : ℚ
  netPay : ℚ
deriving DecidableEq, Repr, Inhabited

/-- Replace the first element satisfying `p` (JS `find` followed by
in-place mutation of the found object). -/
def updateFirst (p : α → Bool) (f : α → α) : List α → List α
  | [] => []
  | x :: xs => if p x then f x :: xs else x :: updateFirst p f xs

/-- The fresh map entry created when an identifier is first seen. -/
def pmFresh (rec : NRecord) : PayrollRecord :=
  ⟨rec.hrpn, rec.name, rec.designation, [], [], 0, 0, 0⟩

/-- Longest-wins name and designation update shared by both merge
loops (designation only when the incoming one is non-empty). -/
def nameDesigUpdate (rec : NRecord) (entry : PayrollRecord) : PayrollRecord :=
  let e1 := if rec.name.length > entry.name.length then {entry with name := rec.name} else entry
  if rec.designation != "" &&
      (e1.designation == "" || rec.designation.length > e1.designation.length) then
    {e1 with designation := rec.designation}
  else e1

/-- The earning-loop update applied to the map entry of the record's
identifier: earning fields are spread in wholesale; a truthy `gross`
field seeds the summary gross. -/
def eUpd (entry : PayrollRecord) (rec : NRecord) : PayrollRecord :=
  let e1 := nameDesigUpdate rec entry
  let e2 := {e1 with earning := spreadMerge e1.earning rec.fields}
  match objGet? rec.fields "gross" with
  | some g => if g != 0 then {e2 with gross := g} else e2
  | none => e2

/-- The deduction-loop update: the reserved `totalDed` / `netPay` keys
are moved into the summary scalars and deleted from the copied field
object before the remaining fields are spread in. -/
def dUpd (entry : PayrollRecord) (rec : NRecord) : PayrollRecord :=
  let e1 := nameDesigUpdate rec entry
  let df0 := rec.fields
  let td := match objGet? df0 "totalDed" with
    | some v => ({e1 with totalDed := v}, objDelete df0 "totalDed")
    | none => (e1, df0)
  let np := match objGet? td.2 "netPay" with
    | some v => ({td.1 with netPay := v}, objDelete td.2 "netPay")
    | none => td
  {np.1 with deduction := spreadMerge np.1.deduction np.2}

/-- The get-or-create step shared by both merge loops: a fresh entry
is appended when the identifier is unseen, then the loop's update is
applied to the (unique) entry bearing the identifier. -/
def mapUpsert (upd : PayrollRecord → NRecord → PayrollRecord)
    (m : List PayrollRecord) (rec : NRecord) : List PayrollRecord :=
  let m1 := if (m.find? (fun r => r.hrpn == rec.hrpn)).isSome then m else m ++ [pmFresh rec]
  updateFirst (fun r => r.hrpn == rec.hrpn) (fun entry => upd entry rec) m1

/-- The body of the earning loop of `mergePayroll`. -/
def stepE (m : List PayrollRecord) (rec : NRecord) : List PayrollRecord :=
  mapUpsert eUpd m rec

/-- The body of the deduction loop of `mergePayroll`. -/
def stepD (m : List PayrollRecord) (rec : NRecord) : List PayrollRecord :=
  mapUpsert dUpd m rec

/-- `mergePayroll`: fold earning records, then deduction records, into
an insertion-ordered identifier-keyed map, then sort the values
ascending by identifier.  (`localeCompare` on the 8-digit identifiers
coincides with code-unit lexicographic order; the sort is stable, and
map keys are pairwise distinct.) -/
def mergePayroll (earningRecords deductionRecords : List NRecord) : List PayrollRecord :=
  let m := deductionRecords.foldl stepD (earningRecords.foldl stepE [])
  m.mergeSort (fun a b => decide (a.hrpn ≤ b.hrpn))

/-- State of `combineRecordSets`: the accumulated list and the set of
identifiers already seen (a JS `Set`, modelled in insertion order). -/
structure CState where
  combined : List NRecord
  seen : List String
deriving Repr

/-- The update `combineRecordSets` applies to the existing record of
a repeated identifier: union the field mappings, keep the longer
name. -/
def combineOne (ex rec : NRecord) : NRecord :=
  let ex1 := {ex with fields := spreadMerge ex.fields rec.fields}
  if rec.name.length > ex1.name.length then {ex1 with name := rec.name} else ex1

/-- The inner-loop body of `combineRecordSets`: fields of a repeated
identifier are spread into the existing record and the longer name
wins; a new identifier appends a copy of the record. -/
def combineStep (st : CState) (rec : NRecord) : CState :=
  if st.seen.contains rec.hrpn then
    match st.combined.find? (fun r => r.hrpn == rec.hrpn) with
    | some _ =>
      { st with combined := (updateFirst (fun r => r.hrpn == rec.hrpn)
          (fun ex => combineOne ex rec) st.combined) }
    | none => st
  else ⟨st.combined ++ [rec], st.seen ++ [rec.hrpn]⟩

/-- `combineRecordSets`: within-kind combination of several record
sets. -/
def combineRecordSets (recordSets : List (List NRecord)) : List NRecord :=
  (recordSets.foldl (fun st records => records.foldl combineStep st)
    (⟨[], []⟩ : CState)).combined

/-! ## Module 8: validateResults -/

/-- `/^\d{8}$/`. -/
def isHrpn8 (s : String) : Bool := s.length == 8 && s.data.all Char.isDigit

/-- Structured form of the validator's error / warning strings,
carrying exactly the data interpolated into each message. -/
inductive VMsg where
  | earnMismatch (hrpn : String) (earningSum gross : ℚ)
  | netMismatch (hrpn : String) (computedNet netPay : ℚ)
  | invalidHrpn (hrpn : String)
deriving DecidableEq, Repr

/-- The earning sum of `validateRecord`: all earning entries except
the `gross` and `slo` pseudo-fields. -/
def earningSumOf (record : PayrollRecord) : ℚ :=
  (record.earning.filter (fun kv => kv.1 != "gross" && kv.1 != "slo")).foldl
    (fun sum kv => sum + kv.2) 0

/-- Per-record validation outcome. -/
structure RecordValidation where
  isValid : Bool
  errors : List VMsg
  warnings : List VMsg
deriving DecidableEq, Repr

/-- `validateRecord`: earning-sum vs gross beyond tolerance 1 is a
warning; gross − totalDed vs netPay beyond tolerance 1 (when all
three are positive) is an error; a malformed identifier is an error;
the record is valid iff it has no errors. -/
def validateRecord (record : PayrollRecord) : RecordValidation :=
  let warnings :=
    if record.gross > 0 ∧ record.earning.length > 0 then
      let earningSum := earningSumOf record
      if |earningSum - record.gross| > 1 then
        [VMsg.earnMismatch record.hrpn earningSum record.gross]
      else []
    else []
  let netErrors :=
    if record.gross > 0 ∧ record.totalDed > 0 ∧ record.netPay > 0 then
      let computedNet := record.gross - record.totalDed
      if |computedNet - record.netPay| > 1 then
        [VMsg.netMismatch record.hrpn computedNet record.netPay]
      else []
    else []
  let hrpnErrors :=
    if record.hrpn == "" || !isHrpn8 record.hrpn then [VMsg.invalidHrpn record.hrpn] else []
  let errors := netErrors ++ hrpnErrors
  ⟨errors.isEmpty, errors, warnings⟩

/-- Batch summary (`ValidationResult.summary`). -/
structure ValidationSummary where
  totalEmployees : Nat
  totalGross : ℚ
  totalDeductions : ℚ
  totalNetPay : ℚ
  earningFieldsFound : List String
  deductionFieldsFound : List String
deriving DecidableEq, Repr

/-- Batch validation outcome (`ValidationResult`). -/
structure ValidationResult where
  isValid : Bool
  totalRecords : Nat
  validRecords : Nat
  errors : List VMsg
  warnings : List VMsg
  summary : ValidationSummary
deriving DecidableEq, Repr

/-- Insertion-ordered set add (a JS `Set` spread back to an array). -/
def addIfAbsent (l : List String) (k : String) : List String :=
  if l.contains k then l else l ++ [k]

/-- Classifier for the arithmetic (net-pay) error messages. -/
def isNetMismatch : VMsg → Bool
  | .netMismatch _ _ _ => true
  | _ => false

/-- Classifier for the earning-sum warning messages. -/
def isEarnMismatch : VMsg → Bool
  | .earnMismatch _ _ _ => true
  | _ => false

/-- The per-record accumulation step of `validateResults`. -/
def vStep (acc : List VMsg × List VMsg × Nat) (record : PayrollRecord) :
    List VMsg × List VMsg × Nat :=
  let result := validateRecord record
  (acc.1 ++ result.errors, acc.2.1 ++ result.warnings,
    acc.2.2 + (if result.isValid then 1 else 0))

/-- `validateResults`: accumulate each record's errors and warnings,
count valid records, and aggregate totals and observed field-key sets.
The two total-row arguments are accepted and unused, as in the
source. -/
def validateResults (records : List PayrollRecord)
    (earningTotalRow deductionTotalRow : Option TotalRow) : ValidationResult :=
  let acc := records.foldl vStep ([], [], 0)
  let earningFieldsFound := records.foldl (fun s r => (objKeys r.earning).foldl addIfAbsent s) []
  let deductionFieldsFound := records.foldl (fun s r => (objKeys r.deduction).foldl addIfAbsent s) []
  ⟨acc.1.isEmpty, records.length, acc.2.2, acc.1, acc.2.1,
   ⟨records.length,
    records.foldl (fun s r => s + r.gross) 0,
    records.foldl (fun s r => s + r.totalDed) 0,
    records.foldl (fun s r => s + r.netPay) 0,
    earningFieldsFound, deductionFieldsFound⟩⟩

/-! ## Pipeline: parseSinglePDF and processPayrollFromFiles

A source file is modelled from the external extraction boundary on:
its pages of positioned tokens.  The progress callback is modelled by
the returned list of `(step, detail)` events; each detail string is
built exactly as in the source.  The batch metadata model keeps the
per-file entries (name, kind, record count); the best-effort
month / bill-number / office propagation and the ISO timestamp are
omitted, as no claim reads them and they influence nothing else. -/

/-- Result of `parseSinglePDF` (the redundant `meta` field is folded
into `type`; see `detectType`). -/
structure SinglePdfResult where
  type : DocType
  records : List NRecord
  totalRow : Option TotalRow
  headers : List String
  normalizedHeaders : List NormalizedHeader
deriving DecidableEq, Repr, Inhabited

/-- The string form of the document kind (as interpolated into the
progress details). -/
def typeName : DocType → String
  | .earning => "earning"
  | .deduction => "deduction"

/-- `parseSinglePDF`: extract, classify, parse headers on page one,
segment rows, parse each block and zip with the document schema.
Classification failure (and the page-one access on a page-less
document) is a thrown error; the events emitted before the throw are
returned alongside. -/
def parseSinglePDF (fileName : String) (pages : List (List RawItem)) :
    List (String × String) × Except String SinglePdfResult :=
  let extracted := extractText pages
  let ev2 := [(("Extracting" : String), "Reading text from " ++ fileName ++ "..."),
    ("Detecting", "Detecting PDF type for " ++ fileName ++ "...")]
  match detectType extracted.rawText with
  | .error msg => (ev2, .error msg)
  | .ok ty =>
    let ev3 := ev2 ++ [("Headers", "Parsing headers (" ++ typeName ty ++ ") from " ++ fileName ++ "...")]
    match extracted.pages with
    | [] => (ev3, .error "Cannot read properties of undefined (reading lines)")
    | firstPage :: _ =>
      let headerResult := parseHeadersSmart firstPage.lines ty
      let normalizedHeaders := headerResult.headers.map (fun h =>
        (⟨h, (normalizeHeader h).1, (normalizeHeader h).2⟩ : NormalizedHeader))
      let ev4 := ev3 ++ [("Segmenting", "Segmenting employee rows from " ++ fileName ++ "...")]
      let seg := segmentRows extracted.pages
      let ev5 := ev4 ++ [("Parsing", "Parsing " ++ toString seg.1.length ++
        " employee blocks from " ++ fileName ++ "...")]
      let records := seg.1.map (fun block =>
        let parsed := parseEmployeeBlock block ty
        let fields := normalizeFields (normalizedHeaders.map (fun h => h.canonical)) parsed.values
        (⟨parsed.hrpn, parsed.name, parsed.designation, fields, parsed.values⟩ : NRecord))
      (ev5, .ok ⟨ty, records, seg.2, headerResult.headers, normalizedHeaders⟩)

/-- A source document of a batch: file name plus the positioned
tokens the external extraction library yields for its pages. -/
structure PdfFile where
  name : String
  pages : List (List RawItem)
deriving Inhabited

/-- A per-file batch metadata entry. -/
structure FileMeta where
  file : String
  type : DocType
  recordCount : Nat
deriving DecidableEq, Repr, Inhabited

/-- The loop state of `processPayrollFromFiles`. -/
structure BatchState where
  earningRecords : List (List NRecord)
  deductionRecords : List (List NRecord)
  earningTotalRow : Option TotalRow
  deductionTotalRow : Option TotalRow
  allMetadata : List FileMeta
deriving Repr

/-- The per-file loop body: a parse failure is caught and leaves the
state untouched; a success pushes the file's records into its kind's
set and records the metadata entry. -/
def processFile (st : BatchState) (f : PdfFile) : BatchState :=
  match (parseSinglePDF f.name f.pages).2 with
  | .error _ => st
  | .ok result =>
    let st1 := {st with allMetadata :=
      st.allMetadata ++ [(⟨f.name, result.type, result.records.length⟩ : FileMeta)]}
    match result.type with
    | .earning =>
      let st2 := { st1 with earningRecords := st1.earningRecords ++ [result.records] }
      match result.totalRow with
      | some t => { st2 with earningTotalRow := some t }
      | none => st2
    | .deduction =>
      let st2 := { st1 with deductionRecords := st1.deductionRecords ++ [result.records] }
      match result.totalRow with
      | some t => { st2 with deductionTotalRow := some t }
      | none => st2

/-- The progress events one file contributes (including the `Error`
report emitted from the catch branch when its parse fails). -/
def fileEvents (f : PdfFile) : List (String × String) :=
  ("Processing", "Processing " ++ f.name ++ "...") ::
    ((parseSinglePDF f.name f.pages).1 ++
      (match (parseSinglePDF f.name f.pages).2 with
       | .error msg => [("Error", "Failed to parse " ++ f.name ++ ": " ++ msg)]
       | .ok _ => []))

/-- Batch metadata of the result. -/
structure ProcessMetadata where
  files : List FileMeta
  totalEmployees : Nat
deriving DecidableEq, Repr

/-- Batch result (`ProcessPayrollResult`). -/
structure ProcessPayrollResult where
  payroll : List PayrollRecord
  validation : ValidationResult
  metadata : ProcessMetadata
deriving DecidableEq, Repr

/-- `processPayrollFromFiles`: the per-file loop with its per-file
try/catch, then within-kind combination, the cross-document merge and
the batch validation, together with all emitted progress events. -/
def processPayrollFromFiles (files : List PdfFile) :
    ProcessPayrollResult × List (String × String) :=
  let st := files.foldl processFile ⟨[], [], none, none, []⟩
  let combinedEarnings :=
    if st.earningRecords.length > 0 then combineRecordSets st.earningRecords else []
  let combinedDeductions :=
    if st.deductionRecords.length > 0 then combineRecordSets st.deductionRecords else []
  let payroll := mergePayroll combinedEarnings combinedDeductions
  let validation := validateResults payroll st.earningTotalRow st.deductionTotalRow
  let events := files.flatMap fileEvents ++
    [(("Merging" : String), "Merging records by HRPN..."),
     ("Validating", "Cross-validating results..."),
     ("Complete", "Processed " ++ toString payroll.length ++ " employees successfully!")]
  (⟨payroll, validation, ⟨st.allMetadata, payroll.length⟩⟩, events)

/-! ## Theorems -/

/-- C10: a text containing the earning-side marker (case-insensitive)
is classified as an earning document, regardless of what else — in
particular the deduction-side marker — the text contains: the earning
branch is tested first, so the two markers never make classification
fail or become ambiguous when both are present. -/
theorem detectType_earning_wins (rawText : String)
    (h : containsSub rawText.toLower "earning side" = true) :
    detectType rawText = .ok .earning := by
  unfold detectType
  simp [h]

/-- Witness for `detectType_earning_wins`: a concrete text holding
both markers. -/
theorem detectType_earning_wins_witness :
    containsSub ("x Earning Side y Deduction Side z").toLower "earning side" = true ∧
    containsSub ("x Earning Side y Deduction Side z").toLower "deduction side" = true ∧
    detectType "x Earning Side y Deduction Side z" = .ok .earning :=
  ⟨by with_unfolding_all decide, by with_unfolding_all decide,
    detectType_earning_wins _ (by with_unfolding_all decide)⟩

/-- C8: whenever some token of the header pool matches a detector's
primary keyword pattern, the resolved position is the x-position of
the first such token; the code pattern plays no role (the result does
not depend on it at all), so the x never comes from the code token. -/
theorem findByKeyword_primary_wins (items : List HeaderItem)
    (primaryPattern : String → Bool) (codePattern : Option (String → Bool))
    (h : ∃ it ∈ items, primaryPattern it.text = true) :
    ∃ it ∈ items, primaryPattern it.text = true ∧
      findItemByText items primaryPattern = some it ∧
      findByKeyword items primaryPattern codePattern = ⟨true, it.x⟩ ∧
      ∀ cp2 : Option (String → Bool),
        findByKeyword items primaryPattern cp2 = findByKeyword items primaryPattern codePattern := by
  have hs : (items.find? (fun it => primaryPattern it.text)).isSome := by
    rw [List.find?_isSome]
    simpa using h
  obtain ⟨it, hit⟩ := Option.isSome_iff_exists.mp hs
  refine ⟨it, List.mem_of_find?_eq_some hit, by simpa using List.find?_some hit, hit, ?_, ?_⟩
  · unfold findByKeyword findItemByText
    rw [hit]
  · intro cp2
    unfold findByKeyword findItemByText
    rw [hit]

/-- Witness for `findByKeyword_primary_wins`: a pool holding both the
primary keyword token (x = 100) and the numeric field-code token
(x = 200) of the DA field resolves to x = 100. -/
theorem findByKeyword_primary_wins_witness :
    (∃ it ∈ [(⟨100, "DA", 80, 0⟩ : HeaderItem), ⟨200, "0103", 80, 0⟩],
      ciContains "da" it.text = true) ∧
    findByKeyword [(⟨100, "DA", 80, 0⟩ : HeaderItem), ⟨200, "0103", 80, 0⟩]
      (ciContains "da") (some (plainContains "0103")) = ⟨true, 100⟩ := by
  refine ⟨⟨⟨100, "DA", 80, 0⟩, by with_unfolding_all decide, by with_unfolding_all decide⟩, ?_⟩
  obtain ⟨it, -, -, hfind, hres, -⟩ := findByKeyword_primary_wins
    [(⟨100, "DA", 80, 0⟩ : HeaderItem), ⟨200, "0103", 80, 0⟩]
    (ciContains "da") (some (plainContains "0103"))
    ⟨⟨100, "DA", 80, 0⟩, by with_unfolding_all decide, by with_unfolding_all decide⟩
  have hcomp : findItemByText [(⟨100, "DA", 80, 0⟩ : HeaderItem), ⟨200, "0103", 80, 0⟩]
      (ciContains "da") = some ⟨100, "DA", 80, 0⟩ := by
    with_unfolding_all decide
  rw [hcomp] at hfind
  have hit : it = ⟨100, "DA", 80, 0⟩ := (Option.some.inj hfind).symm
  rw [hres, hit]

/-- C2: for a record whose gross, total deductions and net pay are all
strictly positive, the validator reports an arithmetic error exactly
when the absolute difference between gross − totalDed and netPay
exceeds the tolerance 1 — and any such error carries the record's
identifier and the two compared amounts. -/
theorem validateRecord_net_arith (r : PayrollRecord)
    (hg : r.gross > 0) (ht : r.totalDed > 0) (hn : r.netPay > 0) :
    ((validateRecord r).errors.countP isNetMismatch
      = if |r.gross - r.totalDed - r.netPay| > 1 then 1 else 0) ∧
    ∀ h c n, VMsg.netMismatch h c n ∈ (validateRecord r).errors →
      h = r.hrpn ∧ c = r.gross - r.totalDed ∧ n = r.netPay := by
  by_cases hd : |r.gross - r.totalDed - r.netPay| > 1 <;>
    by_cases hh : (r.hrpn == "" || !isHrpn8 r.hrpn) = true <;>
      simp [validateRecord, hg, ht, hn, hd, hh, isNetMismatch]

/-- Witness for `validateRecord_net_arith`: the record with
gross 50000, totalDed 5000, netPay 44000 yields exactly one arithmetic
error, and it references identifier 00125678. -/
theorem validateRecord_net_arith_witness :
    ((0 : ℚ) < 50000 ∧ (0 : ℚ) < 5000 ∧ (0 : ℚ) < 44000) ∧
    ((validateRecord ⟨"00125678", "n", "d", [], [], 50000, 5000, 44000⟩).errors.countP
        isNetMismatch
      = if |(50000 : ℚ) - 5000 - 44000| > 1 then 1 else 0) ∧
    (if |(50000 : ℚ) - 5000 - 44000| > 1 then 1 else 0) = 1 ∧
    (∀ h c n, VMsg.netMismatch h c n ∈
        (validateRecord ⟨"00125678", "n", "d", [], [], 50000, 5000, 44000⟩).errors →
      h = "00125678" ∧ c = (50000 : ℚ) - 5000 ∧ n = 44000) := by
  have hmain := validateRecord_net_arith ⟨"00125678", "n", "d", [], [], 50000, 5000, 44000⟩
    (by with_unfolding_all decide) (by with_unfolding_all decide) (by with_unfolding_all decide)
  exact ⟨⟨by with_unfolding_all decide, by with_unfolding_all decide,
    by with_unfolding_all decide⟩, hmain.1, by with_unfolding_all decide, hmain.2⟩

/-- Closed form of the accumulation loop of `validateResults`. -/
theorem vStep_foldl (rs : List PayrollRecord) (a b : List VMsg) (c : Nat) :
    rs.foldl vStep (a, b, c) =
      (a ++ (rs.map (fun r => (validateRecord r).errors)).flatten,
       b ++ (rs.map (fun r => (validateRecord r).warnings)).flatten,
       c + rs.countP (fun r => (validateRecord r).isValid)) := by
  induction rs generalizing a b c with
  | nil => simp
  | cons r rs ih =>
    simp only [List.foldl_cons, vStep, ih, List.map_cons, List.flatten_cons,
      List.countP_cons, List.append_assoc, Prod.mk.injEq]
    refine ⟨trivial, trivial, ?_⟩
    by_cases hv : (validateRecord r).isValid <;> simp [hv] <;> omega

/-- The batch valid-record count is the number of records whose own
validation has no errors. -/
theorem validateResults_validRecords (rs : List PayrollRecord) (et dt : Option TotalRow) :
    (validateResults rs et dt).validRecords
      = rs.countP (fun r => (validateRecord r).isValid) := by
  simp [validateResults, vStep_foldl]

/-- The batch error list is the concatenation of the per-record error
lists. -/
theorem validateResults_errors (rs : List PayrollRecord) (et dt : Option TotalRow) :
    (validateResults rs et dt).errors
      = (rs.map (fun r => (validateRecord r).errors)).flatten := by
  simp [validateResults, vStep_foldl]

/-- The batch validity flag depends only on the per-record error
lists (warnings play no role in it). -/
theorem validateResults_isValid (rs : List PayrollRecord) (et dt : Option TotalRow) :
    (validateResults rs et dt).isValid
      = ((rs.map (fun r => (validateRecord r).errors)).flatten).isEmpty := by
  simp [validateResults, vStep_foldl]

/-- C9: a record with positive gross, a non-empty earning map, and an
earning-field sum that misses the gross by more than the tolerance
gets the mismatch as a warning and not as an error: provided its other
checks pass (well-formed identifier, net-pay arithmetic within
tolerance when applicable), its error list is empty, it is valid,
inserting it into any batch raises the valid-record count by one, and
the batch validity flag is unchanged by it. -/
theorem validateRecord_mismatch_warns (r : PayrollRecord)
    (hg : r.gross > 0) (he : 0 < r.earning.length)
    (hd : |earningSumOf r - r.gross| > 1)
    (hh : isHrpn8 r.hrpn = true)
    (hnet : 0 < r.totalDed → 0 < r.netPay → |r.gross - r.totalDed - r.netPay| ≤ 1) :
    (validateRecord r).warnings = [VMsg.earnMismatch r.hrpn (earningSumOf r) r.gross] ∧
    (validateRecord r).errors = [] ∧
    (validateRecord r).isValid = true ∧
    ∀ (rs₁ rs₂ : List PayrollRecord) (et dt : Option TotalRow),
      (validateResults (rs₁ ++ r :: rs₂) et dt).validRecords
        = (validateResults (rs₁ ++ rs₂) et dt).validRecords + 1 ∧
      (validateResults (rs₁ ++ r :: rs₂) et dt).isValid
        = (validateResults (rs₁ ++ rs₂) et dt).isValid := by
  have hne : (r.hrpn == "") = false := by
    cases hbe : r.hrpn == "" with
    | false => rfl
    | true =>
      have hemp : r.hrpn = "" := by simpa using hbe
      rw [hemp] at hh
      exact absurd hh (by decide)
  have herr : (validateRecord r).errors = [] := by
    by_cases ht2 : 0 < r.totalDed
    · by_cases hn2 : 0 < r.netPay
      · have hle := hnet ht2 hn2
        simp [validateRecord, hg, ht2, hn2, hh, hne, not_lt.mpr hle]
      · simp [validateRecord, hn2, hh, hne]
    · simp [validateRecord, ht2, hh, hne]
  have hwarn : (validateRecord r).warnings
      = [VMsg.earnMismatch r.hrpn (earningSumOf r) r.gross] := by
    simp [validateRecord, hg, he, hd]
  have hvalid : (validateRecord r).isValid = true := by
    have hproj : (validateRecord r).isValid = (validateRecord r).errors.isEmpty := by
      simp [validateRecord]
    rw [hproj, herr]
    rfl
  refine ⟨hwarn, herr, hvalid, ?_⟩
  intro rs₁ rs₂ et dt
  constructor
  · rw [validateResults_validRecords, validateResults_validRecords]
    simp [List.countP_append, List.countP_cons, hvalid]
    omega
  · rw [validateResults_isValid, validateResults_isValid]
    simp [herr]

/-- Witness for `validateRecord_mismatch_warns`: gross 1000 against an
earning map summing to 500 warns, yet the record stays valid and
counts as valid in a batch. -/
theorem validateRecord_mismatch_warns_witness :
    (|earningSumOf ⟨"00125678", "n", "d", [("basic", 500)], [], 1000, 0, 0⟩ - 1000| > 1) ∧
    (validateRecord ⟨"00125678", "n", "d", [("basic", 500)], [], 1000, 0, 0⟩).warnings
      = [VMsg.earnMismatch "00125678"
          (earningSumOf ⟨"00125678", "n", "d", [("basic", 500)], [], 1000, 0, 0⟩) 1000] ∧
    (validateRecord ⟨"00125678", "n", "d", [("basic", 500)], [], 1000, 0, 0⟩).errors = [] ∧
    (validateResults [⟨"00125678", "n", "d", [("basic", 500)], [], 1000, 0, 0⟩] none none).validRecords
      = (validateResults [] none none).validRecords + 1 ∧
    (validateResults [⟨"00125678", "n", "d", [("basic", 500)], [], 1000, 0, 0⟩] none none).isValid
      = (validateResults [] none none).isValid := by
  have hmain := validateRecord_mismatch_warns ⟨"00125678", "n", "d", [("basic", 500)], [], 1000, 0, 0⟩
    (by with_unfolding_all decide) (by with_unfolding_all decide)
    (by with_unfolding_all decide) (by with_unfolding_all decide)
    (fun h1 _ => absurd h1 (by with_unfolding_all decide))
  exact ⟨by with_unfolding_all decide, hmain.1, hmain.2.1,
    (hmain.2.2.2 [] [] none none).1, (hmain.2.2.2 [] [] none none).2⟩

/-- Classification of a document containing neither marker throws. -/
theorem detectType_no_marker (rawText : String)
    (h1 : containsSub rawText.toLower "earning side" = false)
    (h2 : containsSub rawText.toLower "deduction side" = false) :
    detectType rawText
      = .error "Cannot detect PDF type: neither \"Earning Side\" nor \"Deduction Side\" found." := by
  unfold detectType
  simp [h1, h2]

/-- C3: a document whose extracted text contains neither the
earning-side nor the deduction-side marker is a fatal parse error for
that document; in a batch it is excluded (the batch result is exactly
the result of the batch without it) and reported through the progress
callback as an `Error` event, while every other document is still
processed. -/
theorem processPayroll_isolates_bad_doc (bad : PdfFile) (fs1 fs2 : List PdfFile)
    (h1 : containsSub (extractText bad.pages).rawText.toLower "earning side" = false)
    (h2 : containsSub (extractText bad.pages).rawText.toLower "deduction side" = false) :
    (parseSinglePDF bad.name bad.pages).2
      = .error "Cannot detect PDF type: neither \"Earning Side\" nor \"Deduction Side\" found." ∧
    (processPayrollFromFiles (fs1 ++ bad :: fs2)).1 = (processPayrollFromFiles (fs1 ++ fs2)).1 ∧
    ("Error", "Failed to parse " ++ bad.name ++
        ": Cannot detect PDF type: neither \"Earning Side\" nor \"Deduction Side\" found.")
      ∈ (processPayrollFromFiles (fs1 ++ bad :: fs2)).2 := by
  have herr := detectType_no_marker (extractText bad.pages).rawText h1 h2
  have hparse : (parseSinglePDF bad.name bad.pages).2
      = .error "Cannot detect PDF type: neither \"Earning Side\" nor \"Deduction Side\" found." := by
    simp only [parseSinglePDF, herr]
  have hstep : ∀ st, processFile st bad = st := by
    intro st
    unfold processFile
    rw [hparse]
  have hfold : ∀ st : BatchState,
      (fs1 ++ bad :: fs2).foldl processFile st = (fs1 ++ fs2).foldl processFile st := by
    intro st
    rw [List.foldl_append, List.foldl_append, List.foldl_cons, hstep]
  refine ⟨hparse, ?_, ?_⟩
  · unfold processPayrollFromFiles
    rw [hfold]
  · unfold processPayrollFromFiles
    apply List.mem_append_left
    apply List.mem_flatMap.mpr
    refine ⟨bad, ?_, ?_⟩
    · exact List.mem_append_right _ (List.mem_cons_self _ _)
    · unfold fileEvents
      rw [hparse]
      have hlit : ((": " : String) ++
          "Cannot detect PDF type: neither \"Earning Side\" nor \"Deduction Side\" found.")
          = ": Cannot detect PDF type: neither \"Earning Side\" nor \"Deduction Side\" found." := by
        with_unfolding_all decide
      rw [← hlit, ← String.append_assoc]
      simp

/-- Witness for `processPayroll_isolates_bad_doc`: a one-token
document with no marker, alone in a batch. -/
theorem processPayroll_isolates_bad_doc_witness :
    (containsSub (extractText [[(⟨1, 1, "nothing here", 0⟩ : RawItem)]]).rawText.toLower
      "earning side" = false) ∧
    (parseSinglePDF "bad.pdf" [[(⟨1, 1, "nothing here", 0⟩ : RawItem)]]).2
      = .error "Cannot detect PDF type: neither \"Earning Side\" nor \"Deduction Side\" found." ∧
    (processPayrollFromFiles [⟨"bad.pdf", [[(⟨1, 1, "nothing here", 0⟩ : RawItem)]]⟩]).1
      = (processPayrollFromFiles []).1 ∧
    ("Error", "Failed to parse bad.pdf" ++
        ": Cannot detect PDF type: neither \"Earning Side\" nor \"Deduction Side\" found.")
      ∈ (processPayrollFromFiles [⟨"bad.pdf", [[(⟨1, 1, "nothing here", 0⟩ : RawItem)]]⟩]).2 := by
  have hmain := processPayroll_isolates_bad_doc
    ⟨"bad.pdf", [[(⟨1, 1, "nothing here", 0⟩ : RawItem)]]⟩ [] []
    (by with_unfolding_all decide) (by with_unfolding_all decide)
  exact ⟨by with_unfolding_all decide, hmain.1, hmain.2.1, hmain.2.2⟩

/-- C5 counterexample: a deduction-side document with one anchor line
whose block yields no numeric values.  The parse of the block produces
an empty value list, yet the document's record set contains a record
for it (with an empty field mapping) — the block is not dropped, and
no diagnostic exists for it. -/
theorem parseSinglePDF_keeps_empty_values_block :
    (parseSinglePDF "doc"
        [[(⟨10, 100, "Deduction Side", 0⟩ : RawItem), ⟨10, 60, "1 12345678 Kumar", 0⟩]]).2
      = .ok ⟨.deduction, [⟨"12345678", "", "", [], []⟩], none, [], []⟩ := by
  with_unfolding_all rfl

/-- C5 amended: `parseSinglePDF` never drops a block — every block
produced by row segmentation yields exactly one record (blocks whose
parse yields no numeric values included; their mapped fields default
to zero), and a block with an unparsable serial-plus-identifier prefix
cannot arise, since every anchor line matches the digit pattern by
construction. -/
theorem parseSinglePDF_block_count (name : String) (pages : List (List RawItem))
    (evs : List (String × String)) (r : SinglePdfResult)
    (h : parseSinglePDF name pages = (evs, .ok r)) :
    r.records.length = (segmentRows (extractText pages).pages).1.length := by
  simp only [parseSinglePDF] at h
  cases hdet : detectType (extractText pages).rawText with
  | error msg =>
    rw [hdet] at h
    simp at h
  | ok ty =>
    rw [hdet] at h
    cases hp : (extractText pages).pages with
    | nil =>
      rw [hp] at h
      simp at h
    | cons fp rest =>
      rw [hp] at h
      have hr := congrArg Prod.snd h
      simp only [] at hr
      have hrec := Except.ok.inj hr
      rw [← hrec]
      simp

/-- Witness for `parseSinglePDF_block_count`: the one-anchor document
above has one segmented block and one record. -/
theorem parseSinglePDF_block_count_witness :
    (parseSinglePDF "doc"
        [[(⟨10, 100, "Deduction Side", 0⟩ : RawItem), ⟨10, 61, "2 12345679 Mehta", 0⟩]]).2
      = .ok ⟨.deduction, [⟨"12345679", "", "", [], []⟩], none, [], []⟩ ∧
    (⟨.deduction, [⟨"12345679", "", "", [], []⟩], none, [], []⟩ : SinglePdfResult).records.length
      = (segmentRows (extractText
          [[(⟨10, 100, "Deduction Side", 0⟩ : RawItem), ⟨10, 61, "2 12345679 Mehta", 0⟩]]).pages).1.length := by
  constructor
  · with_unfolding_all rfl
  · exact parseSinglePDF_block_count "doc"
      [[(⟨10, 100, "Deduction Side", 0⟩ : RawItem), ⟨10, 61, "2 12345679 Mehta", 0⟩]]
      [("Extracting", "Reading text from doc..."),
       ("Detecting", "Detecting PDF type for doc..."),
       ("Headers", "Parsing headers (deduction) from doc..."),
       ("Segmenting", "Segmenting employee rows from doc..."),
       ("Parsing", "Parsing 1 employee blocks from doc...")]
      ⟨.deduction, [⟨"12345679", "", "", [], []⟩], none, [], []⟩
      (by with_unfolding_all rfl)

/-- Partition property of the line-map buckets: filtering a token list
by each key of a duplicate-free covering key list and flattening
reproduces the list up to permutation. -/
theorem bucket_partition (keys : List Int) (l : List RawItem)
    (hnd : keys.Nodup) (hcov : ∀ a ∈ l, yKey a ∈ keys) :
    ((keys.map (fun y => l.filter (fun it => yKey it == y))).flatten).Perm l := by
  induction keys generalizing l with
  | nil =>
    have hl : l = [] := List.eq_nil_iff_forall_not_mem.mpr (fun a ha => by simpa using hcov a ha)
    subst hl
    simp
  | cons y ys ih =>
    have hy : y ∉ ys := (List.nodup_cons.mp hnd).1
    have hnd2 := (List.nodup_cons.mp hnd).2
    have hmaps : ys.map (fun y2 => l.filter (fun it => yKey it == y2))
        = ys.map (fun y2 =>
            (l.filter (fun it => !(yKey it == y))).filter (fun it => yKey it == y2)) := by
      apply List.map_congr_left
      intro y2 hy2
      rw [List.filter_filter]
      apply List.filter_congr
      intro it _
      cases hk : yKey it == y2 with
      | false => simp
      | true =>
        have hkey : yKey it = y2 := by simpa using hk
        have hne : yKey it ≠ y := by
          rw [hkey]
          intro hcon
          exact hy (hcon ▸ hy2)
        simp [hne]
    have hcov2 : ∀ a ∈ l.filter (fun it => !(yKey it == y)), yKey a ∈ ys := by
      intro a ha
      obtain ⟨ham, hbool⟩ := List.mem_filter.mp ha
      have hne : yKey a ≠ y := by simpa using hbool
      have := hcov a ham
      simpa [hne] using this
    have h1 : ((y :: ys).map (fun y2 => l.filter (fun it => yKey it == y2))).flatten
        = l.filter (fun it => yKey it == y) ++
            (ys.map (fun y2 =>
              (l.filter (fun it => !(yKey it == y))).filter (fun it => yKey it == y2))).flatten := by
      rw [List.map_cons, List.flatten_cons, hmaps]
    rw [h1]
    exact List.Perm.trans (List.Perm.append_left _ (ih _ hnd2 hcov2))
      (List.filter_append_perm _ l)

/-- Re-flattening the items of the lines of one extracted page yields
exactly the kept (non-blank, trimmed, rounded) tokens of the page, as
a multiset. -/
theorem extractPage_items_perm (n : Nat) (items : List RawItem) :
    (((extractPage n items).lines.flatMap (fun l => l.items))).Perm
      ((keptItems items).map toTextItem) := by
  have hforall : List.Forall₂ (fun a b => List.Perm a b)
      ((sortedYs items).map (fun y => (buildLine y (bucketRaw items y)).items))
      ((sortedYs items).map (fun y => (bucketRaw items y).map toTextItem)) := by
    rw [List.forall₂_map_right_iff, List.forall₂_map_left_iff]
    apply List.forall₂_same.mpr
    intro y _
    exact List.mergeSort_perm _ _
  have hnd : (sortedYs items).Nodup := by
    unfold sortedYs
    exact ((List.mergeSort_perm _ _).symm).nodup (List.nodup_dedup _)
  have hcov : ∀ a ∈ keptItems items, yKey a ∈ sortedYs items := by
    intro a ha
    unfold sortedYs
    rw [List.mem_mergeSort, List.mem_dedup]
    exact List.mem_map_of_mem yKey ha
  have h0 : (extractPage n items).lines.flatMap (fun l => l.items)
      = ((sortedYs items).map (fun y => (buildLine y (bucketRaw items y)).items)).flatten := by
    simp only [extractPage, List.flatMap, List.map_map]
    rfl
  rw [h0]
  apply List.Perm.trans (List.Perm.flatten_congr hforall)
  have h2 : ((sortedYs items).map (fun y => (bucketRaw items y).map toTextItem)).flatten
      = (((sortedYs items).map (fun y => bucketRaw items y)).flatten).map toTextItem := by
    rw [List.map_flatten, List.map_map]
    rfl
  rw [h2]
  exact List.Perm.map _ (bucket_partition (sortedYs items) (keptItems items) hnd hcov)

/-- C4 counterexample: a page consisting of one whitespace-only token.
The reconstructed lines hold no tokens at all, so re-flattening them
does not reproduce the original token multiset of the page — the
blank token is lost (tokens whose trimmed text is empty are skipped
during extraction). -/
theorem extractText_drops_blank_token :
    ¬ ((((extractText [[(⟨3, 7, " ", 2⟩ : RawItem)]]).pages.getD 0 default).lines.flatMap
        (fun l => l.items)).Perm ([(⟨3, 7, " ", 2⟩ : RawItem)].map toTextItem)) := by
  with_unfolding_all decide

/-- C4 amended: for every page, re-flattening the tokens of all
reconstructed lines yields exactly the multiset of the page's
non-blank tokens (each in its stored form: x rounded, text trimmed) —
no such token lost and none duplicated.  Tokens whose trimmed text is
empty are skipped by extraction and are not reproduced. -/
theorem extractText_token_multiset (pagesIn : List (List RawItem)) (i : Nat)
    (hi : i < pagesIn.length) :
    ((((extractText pagesIn).pages.getD i default).lines.flatMap (fun l => l.items))).Perm
      (((pagesIn.getD i []).filter (fun it => it.str.trim != "")).map toTextItem) := by
  have hlen : i < (List.mapIdx (fun j items => extractPage (j + 1) items) pagesIn).length := by
    simpa using hi
  have hpage : (extractText pagesIn).pages.getD i default = extractPage (i + 1) (pagesIn.getD i []) := by
    show (List.mapIdx (fun j items => extractPage (j + 1) items) pagesIn).getD i default = _
    rw [List.getD_eq_getElem _ _ hlen, List.getElem_mapIdx, List.getD_eq_getElem _ _ hi]
  rw [hpage]
  exact extractPage_items_perm (i + 1) (pagesIn.getD i [])

/-- Witness for `extractText_token_multiset`: a two-token page with a
blank token in the middle. -/
theorem extractText_token_multiset_witness :
    (0 < ([[(⟨1, 5, " a ", 2⟩ : RawItem), ⟨4, 5, " ", 0⟩, ⟨2, 5, "b", 1⟩]]).length) ∧
    ((((extractText [[(⟨1, 5, " a ", 2⟩ : RawItem), ⟨4, 5, " ", 0⟩, ⟨2, 5, "b", 1⟩]]).pages.getD 0
        default).lines.flatMap (fun l => l.items))).Perm
      ((([(⟨1, 5, " a ", 2⟩ : RawItem), ⟨4, 5, " ", 0⟩, ⟨2, 5, "b", 1⟩]).filter
        (fun it => it.str.trim != "")).map toTextItem) :=
  ⟨by decide, extractText_token_multiset
    [[(⟨1, 5, " a ", 2⟩ : RawItem), ⟨4, 5, " ", 0⟩, ⟨2, 5, "b", 1⟩]] 0 (by decide)⟩

/-- Effect of `updateFirst` on the elements matching the predicate,
when the update preserves the predicate: the head of the matching
sublist is updated. -/
theorem updateFirst_filter_pos {α : Type} (p : α → Bool) (f : α → α)
    (hpf : ∀ x, p (f x) = p x) (l : List α) :
    (updateFirst p f l).filter p
      = (match l.filter p with
         | [] => ([] : List α)
         | c :: cs => f c :: cs) := by
  induction l with
  | nil => simp [updateFirst]
  | cons x xs ih =>
    by_cases hx : p x
    · simp [updateFirst, hx, List.filter_cons, hpf]
    · simp [updateFirst, hx, List.filter_cons, ih]

/-- `updateFirst` leaves the elements matching a disjoint predicate
untouched. -/
theorem updateFirst_filter_ne {α : Type} (p q : α → Bool) (f : α → α)
    (hqf : ∀ x, q (f x) = q x) (hpq : ∀ x, p x = true → q x = false) (l : List α) :
    (updateFirst p f l).filter q = l.filter q := by
  induction l with
  | nil => simp [updateFirst]
  | cons x xs ih =>
    by_cases hx : p x
    · simp [updateFirst, hx, List.filter_cons, hqf, hpq x hx]
    · simp [updateFirst, hx, List.filter_cons, ih]

/-- `combineOne` keeps the identifier. -/
theorem combineOne_hrpn (ex rec : NRecord) : (combineOne ex rec).hrpn = ex.hrpn := by
  unfold combineOne
  by_cases hn : rec.name.length > ({ex with fields := spreadMerge ex.fields rec.fields}).name.length <;>
    simp [hn]

/-- `combineOne` keeps the designation of the existing record. -/
theorem combineOne_designation (ex rec : NRecord) :
    (combineOne ex rec).designation = ex.designation := by
  unfold combineOne
  by_cases hn : rec.name.length > ({ex with fields := spreadMerge ex.fields rec.fields}).name.length <;>
    simp [hn]

/-- `combineOne` unions the field mappings. -/
theorem combineOne_fields (ex rec : NRecord) :
    (combineOne ex rec).fields = spreadMerge ex.fields rec.fields := by
  unfold combineOne
  by_cases hn : rec.name.length > ({ex with fields := spreadMerge ex.fields rec.fields}).name.length <;>
    simp [hn]

/-- `combineOne` keeps the longer of the two names. -/
theorem combineOne_name (ex rec : NRecord) :
    (combineOne ex rec).name = if rec.name.length > ex.name.length then rec.name else ex.name := by
  unfold combineOne
  by_cases hn : rec.name.length > ({ex with fields := spreadMerge ex.fields rec.fields}).name.length <;>
    simp [hn]

/-- Characterization of the `combineRecordSets` loop: after folding a
record list into a state whose `combined` holds, for each identifier,
the fold of `combineOne` over the records of that identifier processed
so far, the same shape holds for the extended record list. -/
theorem combine_foldl_spec (l : List NRecord) (pre : List NRecord) (st : CState)
    (hseen : ∀ h2 : String, st.seen.contains h2 = true ↔ ∃ r ∈ pre, r.hrpn = h2)
    (hcomb : ∀ h2 : String, st.combined.filter (fun r => r.hrpn == h2)
      = (match pre.filter (fun r => r.hrpn == h2) with
         | [] => ([] : List NRecord)
         | e :: rest => [rest.foldl combineOne e]))
    (h2 : String) :
    (l.foldl combineStep st).combined.filter (fun r => r.hrpn == h2)
      = (match (pre ++ l).filter (fun r => r.hrpn == h2) with
         | [] => ([] : List NRecord)
         | e :: rest => [rest.foldl combineOne e]) := by
  induction l generalizing pre st with
  | nil => simpa using hcomb h2
  | cons rec l ih =>
    have hpre : pre ++ rec :: l = (pre ++ [rec]) ++ l := by simp
    rw [hpre, List.foldl_cons]
    by_cases hc : st.seen.contains rec.hrpn = true
    · -- repeated identifier: the existing entry is updated in place
      obtain ⟨r0, hr0m, hr0e⟩ := (hseen rec.hrpn).mp hc
      have hpne : pre.filter (fun r => r.hrpn == rec.hrpn) ≠ [] := by
        intro hnil
        rw [List.filter_eq_nil_iff] at hnil
        exact hnil r0 hr0m (by simp [hr0e])
      obtain ⟨e0, rest0, hdec⟩ :
          ∃ e0 rest0, pre.filter (fun r => r.hrpn == rec.hrpn) = e0 :: rest0 := by
        cases hfe : pre.filter (fun r => r.hrpn == rec.hrpn) with
        | nil => exact absurd hfe hpne
        | cons a b => exact ⟨a, b, rfl⟩
      have hcfil : st.combined.filter (fun r => r.hrpn == rec.hrpn)
          = [rest0.foldl combineOne e0] := by
        rw [hcomb rec.hrpn, hdec]
      have hfindSome : (st.combined.find? (fun r => r.hrpn == rec.hrpn)).isSome := by
        rw [List.find?_isSome]
        have : rest0.foldl combineOne e0 ∈ st.combined.filter (fun r => r.hrpn == rec.hrpn) := by
          rw [hcfil]
          exact List.mem_singleton.mpr rfl
        obtain ⟨hm, hp⟩ := List.mem_filter.mp this
        exact ⟨_, hm, hp⟩
      obtain ⟨c0, hfind⟩ := Option.isSome_iff_exists.mp hfindSome
      have hstep : combineStep st rec
          = { st with combined := (updateFirst (fun r => r.hrpn == rec.hrpn)
              (fun ex => combineOne ex rec) st.combined) } := by
        unfold combineStep
        rw [if_pos hc, hfind]
      rw [hstep]
      apply ih
      · intro h3
        dsimp only
        constructor
        · intro hct
          obtain ⟨r1, hm1, he1⟩ := (hseen h3).mp hct
          exact ⟨r1, List.mem_append_left _ hm1, he1⟩
        · rintro ⟨r1, hm1, he1⟩
          rcases List.mem_append.mp hm1 with hin | hin
          · exact (hseen h3).mpr ⟨r1, hin, he1⟩
          · have hre : r1 = rec := by simpa using hin
            subst hre
            rw [he1] at hc
            exact hc
      · intro h3
        dsimp only
        by_cases hb : (rec.hrpn == h3) = true
        · have heq : rec.hrpn = h3 := by simpa using hb
          subst heq
          have hupd := updateFirst_filter_pos (fun r => r.hrpn == rec.hrpn)
            (fun ex => combineOne ex rec)
            (fun x => by simp [combineOne_hrpn]) st.combined
          have hfr : (pre ++ [rec]).filter (fun r => r.hrpn == rec.hrpn)
              = e0 :: (rest0 ++ [rec]) := by
            rw [List.filter_append, hdec]
            simp
          rw [hupd, hcfil, hfr]
          dsimp only
          rw [List.foldl_append]
          simp
        · have hupd := updateFirst_filter_ne (fun r => r.hrpn == rec.hrpn)
            (fun r => r.hrpn == h3) (fun ex => combineOne ex rec)
            (fun x => by simp [combineOne_hrpn])
            (fun x hx => by
              have hxe : x.hrpn = rec.hrpn := by simpa using hx
              simp only [hxe]
              simpa using hb) st.combined
          have hfr : (pre ++ [rec]).filter (fun r => r.hrpn == h3)
              = pre.filter (fun r => r.hrpn == h3) := by
            rw [List.filter_append]
            have hemp : List.filter (fun r => r.hrpn == h3) [rec] = [] := by simp [hb]
            rw [hemp, List.append_nil]
          rw [hupd, hfr]
          exact hcomb h3
    · -- fresh identifier: the record is appended and marked seen
      have hstep : combineStep st rec
          = ⟨st.combined ++ [rec], st.seen ++ [rec.hrpn]⟩ := by
        unfold combineStep
        rw [if_neg (by simpa using hc)]
      rw [hstep]
      apply ih
      · intro h3
        dsimp only
        constructor
        · intro hct
          have hm : h3 ∈ st.seen ++ [rec.hrpn] := by
            have := List.elem_iff.mp hct
            simpa using this
          rcases List.mem_append.mp hm with hin | hin
          · obtain ⟨r1, hm1, he1⟩ := (hseen h3).mp (List.elem_iff.mpr hin)
            exact ⟨r1, List.mem_append_left _ hm1, he1⟩
          · have heq : h3 = rec.hrpn := by simpa using hin
            exact ⟨rec, List.mem_append_right _ (by simp), heq.symm⟩
        · rintro ⟨r1, hm1, he1⟩
          rcases List.mem_append.mp hm1 with hin | hin
          · have hin2 := (hseen h3).mpr ⟨r1, hin, he1⟩
            apply List.elem_iff.mpr
            have hm := List.elem_iff.mp hin2
            exact List.mem_append_left _ hm
          · have hre : r1 = rec := by simpa using hin
            subst hre
            apply List.elem_iff.mpr
            apply List.mem_append_right
            simp [he1]
      · intro h3
        dsimp only
        rw [List.filter_append, List.filter_append]
        by_cases hb : (rec.hrpn == h3) = true
        · have heq : rec.hrpn = h3 := by simpa using hb
          have hfe : pre.filter (fun r => r.hrpn == h3) = [] := by
            rw [List.filter_eq_nil_iff]
            intro a ha hpa
            have hae : a.hrpn = h3 := by simpa using hpa
            have : st.seen.contains rec.hrpn = true :=
              (hseen rec.hrpn).mpr ⟨a, ha, by rw [hae, heq]⟩
            exact hc this
          have hce : st.combined.filter (fun r => r.hrpn == h3) = [] := by
            rw [hcomb h3, hfe]
          have hrec : List.filter (fun r => r.hrpn == h3) [rec] = [rec] := by simp [hb]
          rw [hce, hfe, hrec]
          rfl
        · have hrec : List.filter (fun r => r.hrpn == h3) [rec] = [] := by simp [hb]
          rw [hrec, List.append_nil, List.append_nil]
          exact hcomb h3

/-- Name fold facts: the combined name is one of the names seen, and
no name seen is longer. -/
theorem combine_fold_name (rest : List NRecord) (e : NRecord) :
    (rest.foldl combineOne e).name ∈ (e :: rest).map (fun r => r.name) ∧
    ∀ r ∈ e :: rest, r.name.length ≤ (rest.foldl combineOne e).name.length := by
  induction rest generalizing e with
  | nil => simp
  | cons rec rest ih =>
    rw [List.foldl_cons]
    obtain ⟨ihmem, ihbound⟩ := ih (combineOne e rec)
    constructor
    · rcases List.mem_map.mp ihmem with ⟨r1, hm1, he1⟩
      rcases List.mem_cons.mp hm1 with hin | hin
      · subst hin
        rw [combineOne_name] at he1
        by_cases hcmp : rec.name.length > e.name.length
        · rw [if_pos hcmp] at he1
          exact List.mem_map.mpr ⟨rec, by simp, he1⟩
        · rw [if_neg hcmp] at he1
          exact List.mem_map.mpr ⟨e, by simp, he1⟩
      · exact List.mem_map.mpr ⟨r1, by simp [hin], he1⟩
    · intro r hr
      rcases List.mem_cons.mp hr with hin | hin
      · subst hin
        have h1 := ihbound (combineOne r rec) (by simp)
        refine le_trans ?_ h1
        rw [combineOne_name]
        by_cases hcmp : rec.name.length > r.name.length
        · rw [if_pos hcmp]
          omega
        · rw [if_neg hcmp]
      · rcases List.mem_cons.mp hin with hin2 | hin2
        · subst hin2
          have h1 := ihbound (combineOne e r) (by simp)
          refine le_trans ?_ h1
          rw [combineOne_name]
          by_cases hcmp : r.name.length > e.name.length
          · rw [if_pos hcmp]
          · rw [if_neg hcmp]
            omega
        · exact ihbound r (by simp [hin2])

/-- Designation fold fact: the combined record keeps the first
record's designation. -/
theorem combine_fold_designation (rest : List NRecord) (e : NRecord) :
    (rest.foldl combineOne e).designation = e.designation := by
  induction rest generalizing e with
  | nil => rfl
  | cons rec rest ih =>
    rw [List.foldl_cons, ih, combineOne_designation]

/-- Fields fold fact: the combined record's field mapping is the
left-to-right spread union of all field mappings. -/
theorem combine_fold_fields (rest : List NRecord) (e : NRecord) :
    (rest.foldl combineOne e).fields
      = rest.foldl (fun acc r => spreadMerge acc r.fields) e.fields := by
  induction rest generalizing e with
  | nil => rfl
  | cons rec rest ih =>
    rw [List.foldl_cons, List.foldl_cons, ih, combineOne_fields]

/-- C6 amended: within-kind combination produces exactly one combined
record per distinct identifier (and none for an absent identifier);
that record unions the field mappings of all records bearing the
identifier, in order, and keeps a longest name seen among them — but
its designation is the designation of the *first* record bearing the
identifier, not the longest one seen. -/
theorem combineRecordSets_spec (recordSets : List (List NRecord)) (h : String)
    (e : NRecord) (rest : List NRecord)
    (hf : (recordSets.flatten).filter (fun r => r.hrpn == h) = e :: rest) :
    ((combineRecordSets recordSets).filter (fun r => r.hrpn == h)
        = [rest.foldl combineOne e]) ∧
    (rest.foldl combineOne e).fields
      = rest.foldl (fun acc r => spreadMerge acc r.fields) e.fields ∧
    (rest.foldl combineOne e).name ∈ (e :: rest).map (fun r => r.name) ∧
    (∀ r ∈ e :: rest, r.name.length ≤ (rest.foldl combineOne e).name.length) ∧
    (rest.foldl combineOne e).designation = e.designation ∧
    (∀ h2 : String, (recordSets.flatten).filter (fun r => r.hrpn == h2) = [] →
      (combineRecordSets recordSets).filter (fun r => r.hrpn == h2) = []) := by
  have hbase : ∀ h2 : String, (combineRecordSets recordSets).filter (fun r => r.hrpn == h2)
      = (match (recordSets.flatten).filter (fun r => r.hrpn == h2) with
         | [] => ([] : List NRecord)
         | e1 :: rest1 => [rest1.foldl combineOne e1]) := by
    intro h2
    unfold combineRecordSets
    have hfold : (recordSets.foldl (fun st records => records.foldl combineStep st)
        (⟨[], []⟩ : CState)) = (recordSets.flatten).foldl combineStep (⟨[], []⟩ : CState) := by
      rw [List.foldl_flatten]
    rw [hfold]
    have := combine_foldl_spec (recordSets.flatten) [] (⟨[], []⟩ : CState)
      (by intro h3; simp [List.contains]) (by intro h3; simp) h2
    simpa using this
  refine ⟨?_, combine_fold_fields rest e, (combine_fold_name rest e).1,
    (combine_fold_name rest e).2, combine_fold_designation rest e, ?_⟩
  · rw [hbase h, hf]
  · intro h2 hnil
    rw [hbase h2, hnil]

/-- C6 counterexample: two records with the same identifier, the
second carrying a strictly longer designation.  The combined record
keeps the first designation (`Peon`), not the longest seen
(`Superintendent`) — refuting the longest-designation part of the
claim. -/
theorem combineRecordSets_designation_not_longest :
    combineRecordSets
        [[⟨"00000001", "A", "Peon", [], []⟩, ⟨"00000001", "AB", "Superintendent", [], []⟩]]
      = [⟨"00000001", "AB", "Peon", [], []⟩] ∧
    ("Peon" : String).length < ("Superintendent" : String).length := by
  constructor
  · with_unfolding_all rfl
  · decide

/-- Witness for `combineRecordSets_spec`: two sets, three records of
one identifier with increasing field mappings and names. -/
theorem combineRecordSets_spec_witness :
    (([[(⟨"00000007", "A", "Peon", [("a", 1)], []⟩ : NRecord),
        ⟨"00000007", "ABC", "Driver", [("b", 2)], []⟩],
       [⟨"00000007", "AB", "Sweeper", [("a", 3)], []⟩]].flatten).filter
      (fun r => r.hrpn == "00000007")
      = [(⟨"00000007", "A", "Peon", [("a", 1)], []⟩ : NRecord),
         ⟨"00000007", "ABC", "Driver", [("b", 2)], []⟩,
         ⟨"00000007", "AB", "Sweeper", [("a", 3)], []⟩]) ∧
    ((combineRecordSets
        [[(⟨"00000007", "A", "Peon", [("a", 1)], []⟩ : NRecord),
          ⟨"00000007", "ABC", "Driver", [("b", 2)], []⟩],
         [⟨"00000007", "AB", "Sweeper", [("a", 3)], []⟩]]).filter
      (fun r => r.hrpn == "00000007")
      = [[(⟨"00000007", "ABC", "Driver", [("b", 2)], []⟩ : NRecord),
          ⟨"00000007", "AB", "Sweeper", [("a", 3)], []⟩].foldl combineOne
          ⟨"00000007", "A", "Peon", [("a", 1)], []⟩]) := by
  constructor
  · with_unfolding_all rfl
  · exact (combineRecordSets_spec
      [[(⟨"00000007", "A", "Peon", [("a", 1)], []⟩ : NRecord),
        ⟨"00000007", "ABC", "Driver", [("b", 2)], []⟩],
       [⟨"00000007", "AB", "Sweeper", [("a", 3)], []⟩]] "00000007"
      ⟨"00000007", "A", "Peon", [("a", 1)], []⟩
      [⟨"00000007", "ABC", "Driver", [("b", 2)], []⟩,
       ⟨"00000007", "AB", "Sweeper", [("a", 3)], []⟩]
      (by with_unfolding_all rfl)).1

/-- Assignment with a key different from the head key commutes with
the head. -/
theorem objInsert_cons_ne (k k2 : String) (v v2 : ℚ) (m : ObjMap) (hne : k2 ≠ k) :
    objInsert ((k, v) :: m) k2 v2 = (k, v) :: objInsert m k2 v2 := by
  have hke : ¬(k = k2) := fun h => hne h.symm
  simp only [objInsert]
  simp [hke]

/-- Spreading a map whose keys avoid the head of the target keeps the
head in place. -/
theorem spreadMerge_cons_ne (k : String) (v : ℚ) (m f : ObjMap)
    (hk : ∀ kv ∈ f, kv.1 ≠ k) :
    spreadMerge ((k, v) :: m) f = (k, v) :: spreadMerge m f := by
  induction f generalizing m with
  | nil => rfl
  | cons kv f ih =>
    unfold spreadMerge at *
    rw [List.foldl_cons, List.foldl_cons]
    rw [objInsert_cons_ne k kv.1 v kv.2 m (hk kv (by simp))]
    exact ih _ (fun kv2 hm => hk kv2 (by simp [hm]))

/-- Spreading a duplicate-free map into an empty object reproduces
it. -/
theorem spreadMerge_nil (f : ObjMap) (hf : (objKeys f).Nodup) : spreadMerge [] f = f := by
  induction f with
  | nil => rfl
  | cons kv f ih =>
    rw [show objKeys (kv :: f) = kv.1 :: objKeys f from rfl] at hf
    obtain ⟨hk, hnd⟩ := List.nodup_cons.mp hf
    have h1 : spreadMerge ([] : ObjMap) (kv :: f) = spreadMerge [kv] f := by
      unfold spreadMerge
      rw [List.foldl_cons]
      rfl
    rw [h1]
    have h2 : spreadMerge [kv] f = kv :: spreadMerge [] f := by
      have h3 := spreadMerge_cons_ne kv.1 kv.2 [] f (fun kv2 hm hcon => by
        exact hk (hcon ▸ List.mem_map_of_mem (fun p => p.1) hm))
      simpa using h3
    rw [h2, ih hnd]

/-- Deleting one key leaves lookups of other keys unchanged. -/
theorem objGet?_delete_ne (m : ObjMap) (k k2 : String) (hne : k2 ≠ k) :
    objGet? (objDelete m k) k2 = objGet? m k2 := by
  induction m with
  | nil => rfl
  | cons kv m ih =>
    cases hk : (kv.1 == k) with
    | true =>
      have hke : kv.1 = k := by simpa using hk
      have hk2 : (kv.1 == k2) = false := by
        simp only [beq_eq_false_iff_ne]
        rw [hke]
        exact fun h => hne h.symm
      simp [objDelete, objGet?, hk, hk2]
    | false =>
      cases hk2 : (kv.1 == k2) with
      | true => simp [objDelete, objGet?, hk, hk2]
      | false =>
        have hih := ih
        simp only [objGet?] at hih
        simp [objDelete, objGet?, hk, hk2, hih]

/-- Elements surviving a deletion were in the original object. -/
theorem objDelete_mem_sub (l : ObjMap) (k : String) (kv2 : String × ℚ)
    (h : kv2 ∈ objDelete l k) : kv2 ∈ l := by
  induction l with
  | nil => simpa [objDelete] using h
  | cons kv3 l ih3 =>
    by_cases hk3 : (kv3.1 == k) = true
    · rw [show objDelete (kv3 :: l) k = l from by simp [objDelete, hk3]] at h
      exact List.mem_cons_of_mem _ h
    · rw [show objDelete (kv3 :: l) k = kv3 :: objDelete l k from by simp [objDelete, hk3]] at h
      rcases List.mem_cons.mp h with hp | hp
      · simp [hp]
      · exact List.mem_cons_of_mem _ (ih3 hp)

/-- Deletion preserves key distinctness. -/
theorem objDelete_keys_nodup (m : ObjMap) (k : String) (hm : (objKeys m).Nodup) :
    (objKeys (objDelete m k)).Nodup := by
  induction m with
  | nil => exact hm
  | cons kv m ih =>
    rw [show objKeys (kv :: m) = kv.1 :: objKeys m from rfl] at hm
    obtain ⟨hk, hnd⟩ := List.nodup_cons.mp hm
    by_cases hke : (kv.1 == k) = true
    · rw [show objDelete (kv :: m) k = m from by simp [objDelete, hke]]
      exact hnd
    · rw [show objDelete (kv :: m) k = kv :: objDelete m k from by simp [objDelete, hke]]
      rw [show objKeys (kv :: objDelete m k) = kv.1 :: objKeys (objDelete m k) from rfl]
      refine List.nodup_cons.mpr ⟨?_, ih hnd⟩
      intro hmem
      obtain ⟨kv2, hm2, he2⟩ := List.mem_map.mp hmem
      exact hk (he2 ▸ List.mem_map_of_mem (fun p => p.1) (objDelete_mem_sub m k kv2 hm2))

/-- `nameDesigUpdate` touches only the name and designation. -/
theorem nameDesigUpdate_parts (rec : NRecord) (entry : PayrollRecord) :
    (nameDesigUpdate rec entry).hrpn = entry.hrpn ∧
    (nameDesigUpdate rec entry).earning = entry.earning ∧
    (nameDesigUpdate rec entry).deduction = entry.deduction ∧
    (nameDesigUpdate rec entry).gross = entry.gross ∧
    (nameDesigUpdate rec entry).totalDed = entry.totalDed ∧
    (nameDesigUpdate rec entry).netPay = entry.netPay := by
  unfold nameDesigUpdate
  by_cases h1 : rec.name.length > entry.name.length <;> simp only [h1, if_true, if_false] <;>
    split <;> simp

/-- A fresh entry is unchanged by the name/designation update of its
own source record. -/
theorem nameDesigUpdate_fresh (rec : NRecord) :
    nameDesigUpdate rec (pmFresh rec) = pmFresh rec := by
  unfold nameDesigUpdate pmFresh
  by_cases hd : (rec.designation == "") = true <;> simp [hd]

/-- The earning update preserves the identifier. -/
theorem eUpd_hrpn (entry : PayrollRecord) (rec : NRecord) :
    (eUpd entry rec).hrpn = entry.hrpn := by
  unfold eUpd
  have h1 := (nameDesigUpdate_parts rec entry).1
  split <;> (try split) <;> simpa using h1

/-- The deduction update preserves the identifier. -/
theorem dUpd_hrpn (entry : PayrollRecord) (rec : NRecord) :
    (dUpd entry rec).hrpn = entry.hrpn := by
  unfold dUpd
  have h1 := (nameDesigUpdate_parts rec entry).1
  dsimp only
  split <;> split <;> simpa using h1

/-- Effect of a get-or-create step on the entries of one identifier:
the record's identifier gets its (unique) entry updated — created
fresh first if absent — and every other identifier's entries are
untouched. -/
theorem mapUpsert_filter (upd : PayrollRecord → NRecord → PayrollRecord)
    (hupd : ∀ entry rec, (upd entry rec).hrpn = entry.hrpn)
    (m : List PayrollRecord) (rec : NRecord) (h : String) :
    (mapUpsert upd m rec).filter (fun r => r.hrpn == h)
      = if (rec.hrpn == h) = true then
          (match m.filter (fun r => r.hrpn == h) with
           | [] => [upd (pmFresh rec) rec]
           | c :: cs => upd c rec :: cs)
        else m.filter (fun r => r.hrpn == h) := by
  by_cases hb : (rec.hrpn == h) = true
  · rw [if_pos hb]
    have heq : rec.hrpn = h := by simpa using hb
    subst heq
    unfold mapUpsert
    dsimp only
    by_cases hfs : (m.find? (fun r => r.hrpn == rec.hrpn)).isSome = true
    · rw [if_pos hfs]
      obtain ⟨c, hc⟩ := Option.isSome_iff_exists.mp hfs
      have hfne : m.filter (fun r => r.hrpn == rec.hrpn) ≠ [] := by
        intro hnil
        rw [List.filter_eq_nil_iff] at hnil
        have hcm := List.mem_of_find?_eq_some hc
        have hcp : (c.hrpn == rec.hrpn) = true := by simpa using List.find?_some hc
        exact hnil c hcm hcp
      obtain ⟨c0, cs0, hdec⟩ :
          ∃ c0 cs0, m.filter (fun r => r.hrpn == rec.hrpn) = c0 :: cs0 := by
        cases hfe : m.filter (fun r => r.hrpn == rec.hrpn) with
        | nil => exact absurd hfe hfne
        | cons a b => exact ⟨a, b, rfl⟩
      rw [updateFirst_filter_pos _ _ (fun x => by simp [hupd]) m, hdec]
    · rw [if_neg hfs]
      have hfe : m.filter (fun r => r.hrpn == rec.hrpn) = [] := by
        rw [List.filter_eq_nil_iff]
        intro a ha hp
        exact hfs (by rw [List.find?_isSome]; exact ⟨a, ha, hp⟩)
      rw [updateFirst_filter_pos _ _ (fun x => by simp [hupd]) (m ++ [pmFresh rec]),
        List.filter_append, hfe]
      have hfr : (([pmFresh rec] : List PayrollRecord)).filter (fun r => r.hrpn == rec.hrpn)
          = [pmFresh rec] := by
        simp [pmFresh]
      rw [hfr, List.nil_append]
  · rw [if_neg hb]
    have hne2 : ∀ x : PayrollRecord, (x.hrpn == rec.hrpn) = true → (x.hrpn == h) = false := by
      intro x hx
      have hxe : x.hrpn = rec.hrpn := by simpa using hx
      rw [hxe]
      simpa using hb
    unfold mapUpsert
    dsimp only
    by_cases hfs : (m.find? (fun r => r.hrpn == rec.hrpn)).isSome = true
    · rw [if_pos hfs, updateFirst_filter_ne _ _ _ (fun x => by simp [hupd]) hne2]
    · rw [if_neg hfs, updateFirst_filter_ne _ _ _ (fun x => by simp [hupd]) hne2,
        List.filter_append]
      have hfr : (([pmFresh rec] : List PayrollRecord)).filter (fun r => r.hrpn == h) = [] := by
        simp only [List.filter_cons, List.filter_nil]
        rw [show (pmFresh rec).hrpn = rec.hrpn from rfl]
        simp [hb]
      rw [hfr, List.append_nil]

/-- Closed form of a whole merge loop, per identifier: the entries of
an identifier after folding a record list are the fold of the loop's
update over that identifier's records, seeded by the pre-existing
entry or a fresh one. -/
theorem upsert_foldl_spec (upd : PayrollRecord → NRecord → PayrollRecord)
    (hupd : ∀ entry rec, (upd entry rec).hrpn = entry.hrpn)
    (l : List NRecord) (m : List PayrollRecord) (h : String) :
    (l.foldl (mapUpsert upd) m).filter (fun r => r.hrpn == h)
      = (match l.filter (fun r => r.hrpn == h) with
         | [] => m.filter (fun r => r.hrpn == h)
         | r0 :: rs =>
           (match m.filter (fun r => r.hrpn == h) with
            | [] => [rs.foldl upd (upd (pmFresh r0) r0)]
            | c :: cs => ((r0 :: rs).foldl upd c) :: cs)) := by
  induction l generalizing m with
  | nil => rfl
  | cons rec l ih =>
    rw [List.foldl_cons, ih (mapUpsert upd m rec),
      mapUpsert_filter upd hupd m rec h]
    by_cases hb : (rec.hrpn == h) = true
    · rw [if_pos hb]
      have hfc : (rec :: l).filter (fun r => r.hrpn == h)
          = rec :: l.filter (fun r => r.hrpn == h) := List.filter_cons_of_pos hb
      rw [hfc]
      cases hmf : m.filter (fun r => r.hrpn == h) with
      | nil =>
        cases hlf : l.filter (fun r => r.hrpn == h) with
        | nil => rfl
        | cons r0 rs => rfl
      | cons c cs =>
        cases hlf : l.filter (fun r => r.hrpn == h) with
        | nil => rfl
        | cons r0 rs => rfl
    · rw [if_neg hb]
      have hfc : (rec :: l).filter (fun r => r.hrpn == h)
          = l.filter (fun r => r.hrpn == h) := List.filter_cons_of_neg (by simpa using hb)
      rw [hfc]

/-- The merge output is sorted ascending by identifier. -/
theorem mergePayroll_out_sorted (m : List PayrollRecord) :
    List.Sorted (fun a b : PayrollRecord => a.hrpn ≤ b.hrpn)
      (m.mergeSort (fun a b => decide (a.hrpn ≤ b.hrpn))) := by
  have hp := @List.sorted_mergeSort PayrollRecord
    (fun a b : PayrollRecord => decide (a.hrpn ≤ b.hrpn))
    (fun a b c hab hbc => by
      simp only [decide_eq_true_eq] at *
      exact le_trans hab hbc)
    (fun a b => by
      simp only [Bool.or_eq_true, decide_eq_true_eq]
      exact le_total a.hrpn b.hrpn) m
  exact hp.imp (fun hab => by simpa using hab)

/-- The fresh earning entry of a record with a truthy `gross` field:
name and designation copied, earning map equal to the record's fields,
summary gross seeded. -/
theorem eUpd_fresh_spec (e : NRecord) (g : ℚ) (hek : (objKeys e.fields).Nodup)
    (hg : objGet? e.fields "gross" = some g) (hgne : g ≠ 0) :
    eUpd (pmFresh e) e = ⟨e.hrpn, e.name, e.designation, e.fields, [], g, 0, 0⟩ := by
  unfold eUpd
  dsimp only
  rw [nameDesigUpdate_fresh, hg]
  dsimp only
  rw [show (pmFresh e).earning = ([] : ObjMap) from rfl, spreadMerge_nil e.fields hek]
  rw [if_pos (by simpa using hgne)]
  rfl

/-- The deduction update on an entry with an empty deduction map, for
a record carrying both reserved keys: the scalars are extracted, the
two keys are deleted, the rest of the fields become the deduction
map, and earning, gross and identifier are untouched. -/
theorem dUpd_spec (c : PayrollRecord) (d : NRecord) (td np : ℚ)
    (htd : objGet? d.fields "totalDed" = some td)
    (hnp : objGet? d.fields "netPay" = some np)
    (hdk : (objKeys d.fields).Nodup)
    (hcd : c.deduction = []) :
    dUpd c d = ⟨c.hrpn, (nameDesigUpdate d c).name, (nameDesigUpdate d c).designation,
      c.earning, objDelete (objDelete d.fields "totalDed") "netPay", c.gross, td, np⟩ := by
  have hparts := nameDesigUpdate_parts d c
  unfold dUpd
  dsimp only
  rw [htd]
  dsimp only
  rw [objGet?_delete_ne d.fields "totalDed" "netPay" (by decide), hnp]
  dsimp only
  rw [show (nameDesigUpdate d c).deduction = ([] : ObjMap) from hparts.2.2.1.trans hcd]
  rw [spreadMerge_nil _ (objDelete_keys_nodup _ "netPay" (objDelete_keys_nodup _ "totalDed" hdk))]
  simp [hparts.1, hparts.2.1, hparts.2.2.2.1]

/-- C1: merging a batch in which an identifier occurs in exactly one
earning record (whose fields carry gross 50000) and exactly one
deduction record (whose fields carry totalDed 5000 and netPay 45000)
produces exactly one output record for that identifier; its summary
scalars are 50000 / 5000 / 45000, its earning map is the earning
record's field mapping, its deduction map is the deduction record's
field mapping with the totalDed and netPay keys removed, and the
whole output sequence is sorted ascending by identifier. -/
theorem mergePayroll_merges_matching_pair
    (es ds : List NRecord) (e d : NRecord) (h : String)
    (hh8 : isHrpn8 h = true)
    (he : e.hrpn = h) (hd : d.hrpn = h)
    (hesf : es.filter (fun r => r.hrpn == h) = [e])
    (hdsf : ds.filter (fun r => r.hrpn == h) = [d])
    (hek : (objKeys e.fields).Nodup) (hdk : (objKeys d.fields).Nodup)
    (hg : objGet? e.fields "gross" = some 50000)
    (htd : objGet? d.fields "totalDed" = some 5000)
    (hnp : objGet? d.fields "netPay" = some 45000) :
    ((mergePayroll es ds).filter (fun r => r.hrpn == h)).length = 1 ∧
    (∃ rec ∈ mergePayroll es ds, rec.hrpn = h ∧ rec.gross = 50000 ∧ rec.totalDed = 5000 ∧
      rec.netPay = 45000 ∧ rec.earning = e.fields ∧
      rec.deduction = objDelete (objDelete d.fields "totalDed") "netPay") ∧
    List.Sorted (fun a b : PayrollRecord => a.hrpn ≤ b.hrpn) (mergePayroll es ds) := by
  have hE := upsert_foldl_spec eUpd eUpd_hrpn es ([] : List PayrollRecord) h
  rw [hesf] at hE
  have hEfil : (es.foldl (mapUpsert eUpd) []).filter (fun r => r.hrpn == h)
      = [eUpd (pmFresh e) e] := by
    rw [hE]
    rfl
  have hc1 := eUpd_fresh_spec e 50000 hek hg (by norm_num)
  have hD := upsert_foldl_spec dUpd dUpd_hrpn ds (es.foldl (mapUpsert eUpd) []) h
  rw [hdsf, hEfil] at hD
  have hDfil : (ds.foldl (mapUpsert dUpd) (es.foldl (mapUpsert eUpd) [])).filter
      (fun r => r.hrpn == h) = [dUpd (eUpd (pmFresh e) e) d] := by
    rw [hD]
    rfl
  have hc2 := dUpd_spec (eUpd (pmFresh e) e) d 5000 45000 htd hnp hdk (by rw [hc1])
  have hfinal : (mergePayroll es ds).filter (fun r => r.hrpn == h)
      = [dUpd (eUpd (pmFresh e) e) d] := by
    have hperm : ((mergePayroll es ds).filter (fun r => r.hrpn == h)).Perm
        [dUpd (eUpd (pmFresh e) e) d] := by
      rw [← hDfil]
      exact (List.mergeSort_perm _ _).filter _
    exact List.perm_singleton.mp hperm
  have hmem : dUpd (eUpd (pmFresh e) e) d ∈ mergePayroll es ds := by
    have hin : dUpd (eUpd (pmFresh e) e) d ∈
        (mergePayroll es ds).filter (fun r => r.hrpn == h) := by
      rw [hfinal]
      simp
    exact List.mem_of_mem_filter hin
  refine ⟨by rw [hfinal]; rfl, ⟨dUpd (eUpd (pmFresh e) e) d, hmem, ?_, ?_, ?_, ?_, ?_, ?_⟩, ?_⟩
  · rw [hc2]
    dsimp only
    rw [hc1]
    exact he
  · rw [hc2]
    dsimp only
    rw [hc1]
  · rw [hc2]
  · rw [hc2]
  · rw [hc2]
    dsimp only
    rw [hc1]
  · rw [hc2]
  · exact mergePayroll_out_sorted _

/-- Witness for `mergePayroll_merges_matching_pair`: concrete
one-record earning and deduction sets for identifier 00125678. -/
theorem mergePayroll_merges_matching_pair_witness :
    (([(⟨"00125678", "Kumar", "Peon", [("basic", 45000), ("da", 5000), ("gross", 50000)], []⟩ :
        NRecord)]).filter (fun r => r.hrpn == "00125678")
      = [⟨"00125678", "Kumar", "Peon", [("basic", 45000), ("da", 5000), ("gross", 50000)], []⟩]) ∧
    (((mergePayroll
        [⟨"00125678", "Kumar", "Peon", [("basic", 45000), ("da", 5000), ("gross", 50000)], []⟩]
        [⟨"00125678", "Kumar S", "", [("incomeTax", 100), ("totalDed", 5000), ("netPay", 45000)], []⟩]).filter
      (fun r => r.hrpn == "00125678")).length = 1) ∧
    (∃ rec ∈ mergePayroll
        [⟨"00125678", "Kumar", "Peon", [("basic", 45000), ("da", 5000), ("gross", 50000)], []⟩]
        [⟨"00125678", "Kumar S", "", [("incomeTax", 100), ("totalDed", 5000), ("netPay", 45000)], []⟩],
      rec.hrpn = "00125678" ∧ rec.gross = 50000 ∧ rec.totalDed = 5000 ∧ rec.netPay = 45000 ∧
      rec.earning = [("basic", 45000), ("da", 5000), ("gross", 50000)] ∧
      rec.deduction = objDelete (objDelete
        [("incomeTax", 100), ("totalDed", 5000), ("netPay", 45000)] "totalDed") "netPay") := by
  have hmain := mergePayroll_merges_matching_pair
    [⟨"00125678", "Kumar", "Peon", [("basic", 45000), ("da", 5000), ("gross", 50000)], []⟩]
    [⟨"00125678", "Kumar S", "", [("incomeTax", 100), ("totalDed", 5000), ("netPay", 45000)], []⟩]
    ⟨"00125678", "Kumar", "Peon", [("basic", 45000), ("da", 5000), ("gross", 50000)], []⟩
    ⟨"00125678", "Kumar S", "", [("incomeTax", 100), ("totalDed", 5000), ("netPay", 45000)], []⟩
    "00125678"
    (by with_unfolding_all decide) rfl rfl
    (by with_unfolding_all rfl) (by with_unfolding_all rfl)
    (by with_unfolding_all decide) (by with_unfolding_all decide)
    (by with_unfolding_all rfl) (by with_unfolding_all rfl) (by with_unfolding_all rfl)
  exact ⟨by with_unfolding_all rfl, hmain.1, hmain.2.1⟩

/-- A line passing the data-line anchor test always yields capture
groups: the serial digits and the 8-digit identifier parse. -/
theorem parseAnchor_of_anchor (s : String) (h : matchSerialHrpn true s.data = true) :
    ∃ sr hr, parseAnchorLine s = some (sr, hr) := by
  unfold matchSerialHrpn at h
  unfold parseAnchorLine
  by_cases h1 : (s.data.takeWhile Char.isDigit).isEmpty = true
  · rw [if_pos h1] at h
    exact absurd h (by simp)
  · rw [if_neg h1] at h
    rw [if_neg h1]
    by_cases h2 : ((s.data.dropWhile Char.isDigit).takeWhile isWsChar).isEmpty = true
    · rw [if_pos h2] at h
      exact absurd h (by simp)
    · rw [if_neg h2] at h
      rw [if_neg h2]
      by_cases h3 : (((s.data.dropWhile Char.isDigit).dropWhile isWsChar).takeWhile
          Char.isDigit).length < 8
      · rw [if_pos h3] at h
        exact absurd h (by simp)
      · rw [if_neg h3] at h
        rw [if_neg h3]
        rw [if_pos rfl] at h
        cases hdr : ((s.data.dropWhile Char.isDigit).dropWhile isWsChar).drop 8 with
        | nil =>
          rw [hdr] at h
          exact absurd h (by simp)
        | cons c rest =>
          rw [hdr] at h
          dsimp only at h ⊢
          rw [if_pos h]
          exact ⟨_, _, rfl⟩

/-- When every value is present, `filterMap` is a `map`. -/
theorem filterMap_all_some {α β : Type} [Inhabited β] (f : α → Option β) (l : List α)
    (h : ∀ x ∈ l, ∃ y, f x = some y) :
    l.filterMap f = l.map (fun x => (f x).getD default) := by
  induction l with
  | nil => rfl
  | cons a l ih =>
    obtain ⟨y, hy⟩ := h a (by simp)
    rw [List.filterMap_cons, List.map_cons, hy]
    rw [ih (fun x hx => h x (by simp [hx]))]
    rfl

/-- Members of the before-region collection carry an index in
`[start, dataIdx)`. -/
theorem collectBefore_mem (lines : List TextLine) (s i : Nat) (x : TextLine)
    (h : x ∈ collectBefore lines s i) :
    ∃ j, s ≤ j ∧ j < i ∧ x = getLine lines j := by
  unfold collectBefore at h
  obtain ⟨j, hj, hx⟩ := List.mem_filterMap.mp h
  obtain ⟨t, ht, hjv⟩ := List.mem_range'.mp hj
  refine ⟨j, by omega, by omega, ?_⟩
  by_cases hs : isSkipLine (getLine lines j).text.trim = true
  · rw [if_pos hs] at hx
    cases hx
  · rw [if_neg hs] at hx
    exact (Option.some.inj hx).symm

/-- The block-start scan never returns an index below its start. -/
theorem findEmpStart_ge (lines : List TextLine) :
    ∀ (fuel i dataIdx : Nat) (isFirst : Bool), i ≤ dataIdx →
      i ≤ findEmpStart lines fuel i dataIdx isFirst := by
  intro fuel
  induction fuel with
  | zero =>
    intro i dataIdx isFirst hle
    simpa [findEmpStart] using hle
  | succ fuel ih =>
    intro i dataIdx isFirst hle
    unfold findEmpStart
    by_cases hlt : i < dataIdx
    · rw [if_pos hlt]
      dsimp only
      by_cases hs : isSkipLine (getLine lines i).text.trim = true
      · rw [if_pos hs]
        exact le_trans (by omega) (ih (i + 1) dataIdx isFirst (by omega))
      · rw [if_neg hs]
        by_cases hn : lineNamePrefixCheck (getLine lines i).text.trim = true
        · rw [if_pos hn]
        · rw [if_neg hn]
          by_cases hf : isFirst = true
          · rw [if_pos hf]
          · rw [if_neg hf]
            exact le_trans (by omega) (ih (i + 1) dataIdx isFirst (by omega))
    · rw [if_neg hlt]
      exact hle

/-- The block-start scan never returns an index past the anchor. -/
theorem findEmpStart_le (lines : List TextLine) :
    ∀ (fuel i dataIdx : Nat) (isFirst : Bool), i ≤ dataIdx →
      findEmpStart lines fuel i dataIdx isFirst ≤ dataIdx := by
  intro fuel
  induction fuel with
  | zero =>
    intro i dataIdx isFirst _
    simp [findEmpStart]
  | succ fuel ih =>
    intro i dataIdx isFirst hle
    unfold findEmpStart
    by_cases hlt : i < dataIdx
    · rw [if_pos hlt]
      dsimp only
      by_cases hs : isSkipLine (getLine lines i).text.trim = true
      · rw [if_pos hs]
        exact ih (i + 1) dataIdx isFirst (by omega)
      · rw [if_neg hs]
        by_cases hn : lineNamePrefixCheck (getLine lines i).text.trim = true
        · rw [if_pos hn]
          omega
        · rw [if_neg hn]
          by_cases hf : isFirst = true
          · rw [if_pos hf]
            omega
          · rw [if_neg hf]
            exact ih (i + 1) dataIdx isFirst (by omega)
    · rw [if_neg hlt]

/-- Coupling of the trailing-line collection of one block with the
start scan of the next block over the same region, with the same
fuel: every collected trailing line lies strictly before the next
block's start. -/
theorem collectAfter_mem (lines : List TextLine) :
    ∀ (fuel i nb : Nat) (x : TextLine), x ∈ collectAfter lines fuel i nb →
      ∃ j, i ≤ j ∧ j < nb ∧ x = getLine lines j ∧
        j < findEmpStart lines fuel i nb false := by
  intro fuel
  induction fuel with
  | zero =>
    intro i nb x hx
    simp [collectAfter] at hx
  | succ fuel ih =>
    intro i nb x hx
    unfold collectAfter at hx
    by_cases hlt : i < nb
    · rw [if_pos hlt] at hx
      dsimp only at hx
      by_cases hs : isSkipLine (getLine lines i).text.trim = true
      · rw [if_pos hs] at hx
        obtain ⟨j, hj1, hj2, hj3, hj4⟩ := ih (i + 1) nb x hx
        refine ⟨j, by omega, hj2, hj3, ?_⟩
        unfold findEmpStart
        rw [if_pos hlt]
        dsimp only
        rw [if_pos hs]
        exact hj4
      · rw [if_neg hs] at hx
        by_cases ht : totalStart (getLine lines i).text.trim = true
        · rw [if_pos ht] at hx
          cases hx
        · rw [if_neg ht] at hx
          by_cases hn : lineNamePrefixCheck (getLine lines i).text.trim = true
          · rw [if_pos hn] at hx
            cases hx
          · rw [if_neg hn] at hx
            have hstep : findEmpStart lines (fuel + 1) i nb false
                = findEmpStart lines fuel (i + 1) nb false := by
              conv_lhs => unfold findEmpStart
              rw [if_pos hlt]
              dsimp only
              rw [if_neg hs, if_neg hn, if_neg (by simp)]
            rcases List.mem_cons.mp hx with hx1 | hx1
            · refine ⟨i, le_refl i, hlt, hx1, ?_⟩
              rw [hstep]
              have := findEmpStart_ge lines fuel (i + 1) nb false (by omega)
              omega
            · obtain ⟨j, hj1, hj2, hj3, hj4⟩ := ih (i + 1) nb x hx1
              refine ⟨j, by omega, hj2, hj3, ?_⟩
              rw [hstep]
              exact hj4
    · rw [if_neg hlt] at hx
      cases hx

/-- Anchor indices are indices into the line list. -/
theorem dataIdxsOf_lt (lines : List TextLine) (a : Nat) (ha : a ∈ dataIdxsOf lines) :
    a < lines.length := by
  unfold dataIdxsOf at ha
  exact List.mem_range.mp (List.mem_filter.mp ha).1

/-- Anchor indices point at lines passing the anchor test. -/
theorem dataIdxsOf_anchor (lines : List TextLine) (a : Nat) (ha : a ∈ dataIdxsOf lines) :
    matchSerialHrpn true (getLine lines a).text.data = true :=
  (List.mem_filter.mp ha).2

/-- Anchor indices are strictly increasing. -/
theorem dataIdxsOf_pairwise (lines : List TextLine) :
    List.Pairwise (· < ·) (dataIdxsOf lines) :=
  List.Pairwise.filter _ (List.pairwise_lt_range _)

/-- A valid position of the anchor-index list yields a member. -/
theorem dataIdxsOf_getD_mem (lines : List TextLine) (d : Nat)
    (hd : d < (dataIdxsOf lines).length) :
    (dataIdxsOf lines).getD d 0 ∈ dataIdxsOf lines := by
  rw [List.getD_eq_getElem _ _ hd]
  exact List.getElem_mem hd

/-- Earlier anchor positions carry smaller indices. -/
theorem dataIdxsOf_getD_lt (lines : List TextLine) (d e : Nat)
    (hd : d < (dataIdxsOf lines).length) (he : e < (dataIdxsOf lines).length)
    (hde : d < e) :
    (dataIdxsOf lines).getD d 0 < (dataIdxsOf lines).getD e 0 := by
  rw [List.getD_eq_getElem _ _ hd, List.getD_eq_getElem _ _ he]
  exact List.pairwise_iff_getElem.mp (dataIdxsOf_pairwise lines) d e hd he hde

/-- The line list of a successfully built block, written out. -/
theorem buildBlock_rawLines (lines : List TextLine) (hE : Nat) (dataIdxs : List Nat)
    (n j pageNum : Nat) (b : EmployeeBlock)
    (hb : buildBlock lines hE dataIdxs n j pageNum = some b) :
    b.rawLines = collectBefore lines
        (findEmpStart lines
          (dataIdxs.getD j 0 - (if j == 0 then hE else dataIdxs.getD (j - 1) 0 + 1))
          (if j == 0 then hE else dataIdxs.getD (j - 1) 0 + 1)
          (dataIdxs.getD j 0) (j == 0))
        (dataIdxs.getD j 0)
      ++ [getLine lines (dataIdxs.getD j 0)]
      ++ collectAfter lines
          ((if j < dataIdxs.length - 1 then dataIdxs.getD (j + 1) 0 else n)
            - (dataIdxs.getD j 0 + 1))
          (dataIdxs.getD j 0 + 1)
          (if j < dataIdxs.length - 1 then dataIdxs.getD (j + 1) 0 else n) := by
  unfold buildBlock at hb
  dsimp only at hb
  cases hpar : parseAnchorLine (getLine lines (dataIdxs.getD j 0)).text with
  | none =>
    rw [hpar] at hb
    cases hb
  | some p =>
    rw [hpar] at hb
    cases p
    obtain rfl := Option.some.inj hb
    rfl

/-- C7.  For a page whose reconstructed lines sit in pairwise distinct
y buckets — which `extractText` guarantees, since it builds one line
per deduplicated rounded y — any two consecutive employee blocks
produced by the row segmenter have disjoint line sets: no reconstructed
line is a member of both neighbouring blocks.  The proof shows every
line of block `d` comes from an index strictly below the start index of
block `d + 1`, and every line of block `d + 1` from an index at or
above it: the trailing-line collector of block `d` and the start scan
of block `d + 1` walk the same region with the same policy, so the
collector stops strictly before the next block's start. -/
theorem segmentRows_adjacent_blocks_disjoint (pg : PageData)
    (hnd : (pg.lines.map TextLine.y).Nodup)
    (d : Nat) (b₁ b₂ : EmployeeBlock)
    (h₁ : (segmentRows [pg]).1[d]? = some b₁)
    (h₂ : (segmentRows [pg]).1[d + 1]? = some b₂) :
    ∀ l ∈ b₁.rawLines, l ∉ b₂.rawLines := by
  have hnd' : pg.lines.Nodup := hnd.of_map
  have hseg : (segmentRows [pg]).1 = segmentPage pg := by
    simp [segmentRows]
  rw [hseg] at h₁ h₂
  by_cases hemp : (dataIdxsOf pg.lines).isEmpty = true
  · rw [show segmentPage pg = [] from by simp [segmentPage, hemp]] at h₁
    simp at h₁
  · have hsp : segmentPage pg = (List.range (dataIdxsOf pg.lines).length).filterMap
        (fun j => buildBlock pg.lines (headerEndIdxOf pg.lines) (dataIdxsOf pg.lines)
          pg.lines.length j pg.pageNum) := by
      simp [segmentPage, hemp]
    have hsome : ∀ j, j < (dataIdxsOf pg.lines).length →
        ∃ b, buildBlock pg.lines (headerEndIdxOf pg.lines) (dataIdxsOf pg.lines)
          pg.lines.length j pg.pageNum = some b := by
      intro j hj
      obtain ⟨sr, hr, hpar⟩ := parseAnchor_of_anchor _
        (dataIdxsOf_anchor pg.lines _ (dataIdxsOf_getD_mem pg.lines j hj))
      have hiss : (buildBlock pg.lines (headerEndIdxOf pg.lines) (dataIdxsOf pg.lines)
          pg.lines.length j pg.pageNum).isSome = true := by
        unfold buildBlock
        dsimp only
        rw [hpar]
        rfl
      exact Option.isSome_iff_exists.mp hiss
    have hmap : segmentPage pg = (List.range (dataIdxsOf pg.lines).length).map
        (fun j => (buildBlock pg.lines (headerEndIdxOf pg.lines) (dataIdxsOf pg.lines)
          pg.lines.length j pg.pageNum).getD default) := by
      rw [hsp]
      exact filterMap_all_some _ _ (fun j hj => hsome j (List.mem_range.mp hj))
    rw [hmap, List.getElem?_map] at h₁ h₂
    have hd1 : d + 1 < (dataIdxsOf pg.lines).length := by
      by_contra hcon
      rw [List.getElem?_eq_none (by simpa using hcon)] at h₂
      simp at h₂
    have hd0 : d < (dataIdxsOf pg.lines).length := by omega
    rw [List.getElem?_range hd0] at h₁
    rw [List.getElem?_range hd1] at h₂
    simp only [Option.map_some'] at h₁ h₂
    obtain ⟨c₁, hc₁⟩ := hsome d hd0
    obtain ⟨c₂, hc₂⟩ := hsome (d + 1) hd1
    have hB₁ : buildBlock pg.lines (headerEndIdxOf pg.lines) (dataIdxsOf pg.lines)
        pg.lines.length d pg.pageNum = some b₁ := by
      rw [hc₁]
      rw [hc₁] at h₁
      simp only [Option.getD_some] at h₁
      rw [h₁]
    have hB₂ : buildBlock pg.lines (headerEndIdxOf pg.lines) (dataIdxsOf pg.lines)
        pg.lines.length (d + 1) pg.pageNum = some b₂ := by
      rw [hc₂]
      rw [hc₂] at h₂
      simp only [Option.getD_some] at h₂
      rw [h₂]
    have hrl₁ := buildBlock_rawLines _ _ _ _ _ _ _ hB₁
    have hrl₂ := buildBlock_rawLines _ _ _ _ _ _ _ hB₂
    rw [if_pos (show d < (dataIdxsOf pg.lines).length - 1 by omega)] at hrl₁
    have hz : ((d + 1 : Nat) == 0) = false := by simp
    simp only [hz, Bool.false_eq_true, if_false, Nat.add_sub_cancel] at hrl₂
    have hii : (dataIdxsOf pg.lines).getD d 0 < (dataIdxsOf pg.lines).getD (d + 1) 0 :=
      dataIdxsOf_getD_lt pg.lines d (d + 1) hd0 hd1 (by omega)
    have hi₂n : (dataIdxsOf pg.lines).getD (d + 1) 0 < pg.lines.length :=
      dataIdxsOf_lt pg.lines _ (dataIdxsOf_getD_mem pg.lines (d + 1) hd1)
    have hnb₂ : (if d + 1 < (dataIdxsOf pg.lines).length - 1
        then (dataIdxsOf pg.lines).getD (d + 1 + 1) 0 else pg.lines.length)
        ≤ pg.lines.length := by
      by_cases hc : d + 1 < (dataIdxsOf pg.lines).length - 1
      · rw [if_pos hc]
        exact le_of_lt (dataIdxsOf_lt pg.lines _
          (dataIdxsOf_getD_mem pg.lines (d + 1 + 1) (by omega)))
      · rw [if_neg hc]
    have hs₂ge : (dataIdxsOf pg.lines).getD d 0 + 1 ≤
        findEmpStart pg.lines
          ((dataIdxsOf pg.lines).getD (d + 1) 0 - ((dataIdxsOf pg.lines).getD d 0 + 1))
          ((dataIdxsOf pg.lines).getD d 0 + 1)
          ((dataIdxsOf pg.lines).getD (d + 1) 0) false :=
      findEmpStart_ge pg.lines _ _ _ _ (by omega)
    have hs₂le : findEmpStart pg.lines
          ((dataIdxsOf pg.lines).getD (d + 1) 0 - ((dataIdxsOf pg.lines).getD d 0 + 1))
          ((dataIdxsOf pg.lines).getD d 0 + 1)
          ((dataIdxsOf pg.lines).getD (d + 1) 0) false ≤
        (dataIdxsOf pg.lines).getD (d + 1) 0 :=
      findEmpStart_le pg.lines _ _ _ _ (by omega)
    intro x hx₁ hx₂
    rw [hrl₁] at hx₁
    rw [hrl₂] at hx₂
    have hidx₁ : ∃ j, j < findEmpStart pg.lines
          ((dataIdxsOf pg.lines).getD (d + 1) 0 - ((dataIdxsOf pg.lines).getD d 0 + 1))
          ((dataIdxsOf pg.lines).getD d 0 + 1)
          ((dataIdxsOf pg.lines).getD (d + 1) 0) false ∧
        j < pg.lines.length ∧ x = getLine pg.lines j := by
      rcases List.mem_append.mp hx₁ with hx | hx
      · rcases List.mem_append.mp hx with hx | hx
        · obtain ⟨j, hj1, hj2, hj3⟩ := collectBefore_mem _ _ _ _ hx
          exact ⟨j, by omega, by omega, hj3⟩
        · rw [List.mem_singleton] at hx
          exact ⟨(dataIdxsOf pg.lines).getD d 0, by omega, by omega, hx⟩
      · obtain ⟨j, hj1, hj2, hj3, hj4⟩ := collectAfter_mem pg.lines _ _ _ x hx
        exact ⟨j, hj4, by omega, hj3⟩
    have hidx₂ : ∃ j, findEmpStart pg.lines
          ((dataIdxsOf pg.lines).getD (d + 1) 0 - ((dataIdxsOf pg.lines).getD d 0 + 1))
          ((dataIdxsOf pg.lines).getD d 0 + 1)
          ((dataIdxsOf pg.lines).getD (d + 1) 0) false ≤ j ∧
        j < pg.lines.length ∧ x = getLine pg.lines j := by
      rcases List.mem_append.mp hx₂ with hx | hx
      · rcases List.mem_append.mp hx with hx | hx
        · obtain ⟨j, hj1, hj2, hj3⟩ := collectBefore_mem _ _ _ _ hx
          exact ⟨j, hj1, by omega, hj3⟩
        · rw [List.mem_singleton] at hx
          exact ⟨(dataIdxsOf pg.lines).getD (d + 1) 0, by omega, hi₂n, hx⟩
      · obtain ⟨j, hj1, hj2, hj3, _⟩ := collectAfter_mem pg.lines _ _ _ x hx
        exact ⟨j, by omega, by omega, hj3⟩
    obtain ⟨j₁, hj₁s, hj₁n, hxj₁⟩ := hidx₁
    obtain ⟨j₂, hj₂s, hj₂n, hxj₂⟩ := hidx₂
    have hne : j₁ ≠ j₂ := by omega
    have heq : getLine pg.lines j₁ = getLine pg.lines j₂ := by
      rw [← hxj₁, ← hxj₂]
    unfold getLine at heq
    rw [List.getD_eq_getElem _ _ hj₁n, List.getD_eq_getElem _ _ hj₂n] at heq
    exact hne ((List.Nodup.getElem_inj_iff hnd').mp heq)

/-- Witness for C7: a page with two anchors, each with an honorific
line and a trailing line, yields two blocks with disjoint line sets. -/
theorem segmentRows_adjacent_blocks_disjoint_witness :
    (((⟨1, [⟨100, [], "Mr. Alpha One"⟩, ⟨90, [], "1 12345678 500"⟩,
        ⟨80, [], "Junior Clerk"⟩, ⟨70, [], "Mr. Beta Two"⟩,
        ⟨60, [], "2 23456789 600"⟩, ⟨50, [], "Senior Clerk"⟩]⟩ :
        PageData).lines.map TextLine.y).Nodup) ∧
    ∀ l ∈ (⟨1, "12345678",
        [⟨100, [], "Mr. Alpha One"⟩, ⟨90, [], "1 12345678 500"⟩,
         ⟨80, [], "Junior Clerk"⟩],
        ⟨90, [], "1 12345678 500"⟩, 1⟩ : EmployeeBlock).rawLines,
      l ∉ (⟨2, "23456789",
        [⟨70, [], "Mr. Beta Two"⟩, ⟨60, [], "2 23456789 600"⟩,
         ⟨50, [], "Senior Clerk"⟩],
        ⟨60, [], "2 23456789 600"⟩, 1⟩ : EmployeeBlock).rawLines :=
  ⟨by with_unfolding_all decide,
   segmentRows_adjacent_blocks_disjoint
     ⟨1, [⟨100, [], "Mr. Alpha One"⟩, ⟨90, [], "1 12345678 500"⟩,
        ⟨80, [], "Junior Clerk"⟩, ⟨70, [], "Mr. Beta Two"⟩,
        ⟨60, [], "2 23456789 600"⟩, ⟨50, [], "Senior Clerk"⟩]⟩
     (by with_unfolding_all decide) 0 _ _
     (by with_unfolding_all decide) (by with_unfolding_all decide)⟩

end SPMS
